import Mathlib

/-!
Verification of the per-node routing logic of `routesim2`:
a path-vector distance-vector node (`distance_vector_node.py`) and a
link-state node (`link_state_node.py`), shallowly embedded in Lean.

Modelling conventions:
* Python dicts are association lists with Python-dict semantics
  (`alookup`, `ainsert` update-in-place-or-append, `aremove`).
* Python numbers (JSON numbers / floats) are `PyNum`, an exact fraction
  `num / (den1+1)` compared by value (cross-multiplication), which matches
  Python's `==`/`<` on exact numeric values and keeps every operation
  kernel-computable.
* `json.loads` is external; a message is received as `Option Json`
  (`none` = the string is not valid JSON, so `json.loads` raises).
* Python exceptions are explicit: each handler returns a result record
  with a `raised` flag.  In both handlers every raise point occurs before
  any mutation of node state, so a raising call leaves the state equal to
  the input state.
-/

/-! ## Exact Python numbers -/

/-- Exact numeric value `num / (den1 + 1)`; the denominator is stored
minus one so that it is positive by construction. -/
structure PyNum where
  num : Int
  den1 : Nat
deriving DecidableEq

/-- Denominator (always positive). -/
def PyNum.den (x : PyNum) : Nat := x.den1 + 1

/-- Embed an integer. -/
def PyNum.ofInt (n : Int) : PyNum := ⟨n, 0⟩

/-- Exact addition (`a/b + c/d = (a*d + c*b)/(b*d)`). -/
def PyNum.add (x y : PyNum) : PyNum :=
  ⟨x.num * y.den + y.num * x.den, x.den * y.den - 1⟩

/-- Python `==` on numbers: value equality by cross-multiplication. -/
def PyNum.eqB (x y : PyNum) : Bool := x.num * y.den == y.num * x.den

/-- Python `<` on numbers: value order by cross-multiplication. -/
def PyNum.ltB (x y : PyNum) : Bool := decide (x.num * y.den < y.num * x.den)

/-- Rational value of a `PyNum` (for reasoning only). -/
def PyNum.toRat (x : PyNum) : ℚ := (x.num : ℚ) / (x.den : ℚ)

/-- Python `int()` on an exact number: truncation toward zero. -/
def pyTrunc (x : PyNum) : Int := x.num.tdiv x.den

theorem PyNum.den_pos (x : PyNum) : 0 < x.den := Nat.succ_pos _

theorem PyNum.den_add (x y : PyNum) : (x.add y).den = x.den * y.den := by
  have h : 1 ≤ x.den * y.den := Nat.mul_pos x.den_pos y.den_pos
  show x.den * y.den - 1 + 1 = x.den * y.den
  exact Nat.sub_add_cancel h

theorem PyNum.den_cast_pos (x : PyNum) : (0 : ℚ) < (x.den : ℚ) := by
  exact_mod_cast x.den_pos

theorem PyNum.toRat_add (x y : PyNum) : (x.add y).toRat = x.toRat + y.toRat := by
  have hx := x.den_cast_pos
  have hy := y.den_cast_pos
  simp only [PyNum.toRat]
  rw [show ((x.add y).den : ℚ) = (x.den : ℚ) * (y.den : ℚ) by
    rw [PyNum.den_add]; push_cast; ring]
  rw [show ((x.add y).num : ℚ)
      = (x.num : ℚ) * (y.den : ℚ) + (y.num : ℚ) * (x.den : ℚ) by
    show ((x.num * y.den + y.num * x.den : Int) : ℚ) = _
    push_cast; ring]
  field_simp
  try ring

theorem PyNum.eqB_iff (x y : PyNum) : x.eqB y = true ↔ x.toRat = y.toRat := by
  have hx := x.den_cast_pos
  have hy := y.den_cast_pos
  simp only [PyNum.eqB, PyNum.toRat, beq_iff_eq]
  rw [div_eq_div_iff (ne_of_gt hx) (ne_of_gt hy)]
  constructor
  · intro h; exact_mod_cast h
  · intro h; exact_mod_cast h

theorem PyNum.ltB_iff (x y : PyNum) : x.ltB y = true ↔ x.toRat < y.toRat := by
  have hx := x.den_cast_pos
  have hy := y.den_cast_pos
  simp only [PyNum.ltB, PyNum.toRat, decide_eq_true_eq]
  rw [div_lt_div_iff hx hy]
  constructor
  · intro h; exact_mod_cast h
  · intro h; exact_mod_cast h

/-! ## Python dicts as association lists -/

/-- Python dict lookup (`m.get(k)` / `m[k]`). -/
def alookup {κ α : Type} [DecidableEq κ] (m : List (κ × α)) (k : κ) : Option α :=
  match m with
  | [] => none
  | p :: rest => if p.1 = k then some p.2 else alookup rest k

/-- Python dict assignment `m[k] = v`: update in place if the key exists,
append otherwise. -/
def ainsert {κ α : Type} [DecidableEq κ] (m : List (κ × α)) (k : κ) (v : α) :
    List (κ × α) :=
  match m with
  | [] => [(k, v)]
  | p :: rest => if p.1 = k then (k, v) :: rest else p :: ainsert rest k v

/-- Python `m.pop(k, None)`. -/
def aremove {κ α : Type} [DecidableEq κ] (m : List (κ × α)) (k : κ) :
    List (κ × α) :=
  match m with
  | [] => []
  | p :: rest => if p.1 = k then aremove rest k else p :: aremove rest k

/-- Keys of a dict. -/
def akeys {κ α : Type} (m : List (κ × α)) : List κ := m.map Prod.fst

/-- A list that faithfully represents a Python dict has no duplicate keys. -/
def NodupKeys {κ α : Type} (m : List (κ × α)) : Prop := (akeys m).Nodup

theorem alookup_ainsert_self {κ α : Type} [DecidableEq κ]
    (m : List (κ × α)) (k : κ) (v : α) : alookup (ainsert m k v) k = some v := by
  induction m with
  | nil => simp [ainsert, alookup]
  | cons p rest ih =>
    by_cases h : p.1 = k
    · simp [ainsert, h, alookup]
    · simp [ainsert, h, alookup, ih]

theorem alookup_ainsert_ne {κ α : Type} [DecidableEq κ]
    (m : List (κ × α)) (k k' : κ) (v : α) (h : k' ≠ k) :
    alookup (ainsert m k v) k' = alookup m k' := by
  induction m with
  | nil =>
    show (if k = k' then some v else none) = none
    rw [if_neg (Ne.symm h)]
  | cons p rest ih =>
    by_cases hp : p.1 = k
    · show alookup (if p.1 = k then (k, v) :: rest else p :: ainsert rest k v) k' = _
      rw [if_pos hp]
      show (if k = k' then some v else alookup rest k') = _
      rw [if_neg (Ne.symm h)]
      show _ = (if p.1 = k' then some p.2 else alookup rest k')
      rw [if_neg (by rw [hp]; exact Ne.symm h)]
    · show alookup (if p.1 = k then (k, v) :: rest else p :: ainsert rest k v) k' = _
      rw [if_neg hp]
      show (if p.1 = k' then some p.2 else alookup (ainsert rest k v) k') = _
      show _ = (if p.1 = k' then some p.2 else alookup rest k')
      rw [ih]

theorem alookup_aremove_self {κ α : Type} [DecidableEq κ]
    (m : List (κ × α)) (k : κ) : alookup (aremove m k) k = none := by
  induction m with
  | nil => rfl
  | cons p rest ih =>
    show alookup (if p.1 = k then aremove rest k else p :: aremove rest k) k = none
    by_cases h : p.1 = k
    · rw [if_pos h]; exact ih
    · rw [if_neg h]
      show (if p.1 = k then some p.2 else alookup (aremove rest k) k) = none
      rw [if_neg h]
      exact ih

theorem alookup_aremove_ne {κ α : Type} [DecidableEq κ]
    (m : List (κ × α)) (k k' : κ) (h : k' ≠ k) :
    alookup (aremove m k) k' = alookup m k' := by
  induction m with
  | nil => rfl
  | cons p rest ih =>
    show alookup (if p.1 = k then aremove rest k else p :: aremove rest k) k' = _
    by_cases hp : p.1 = k
    · rw [if_pos hp, ih]
      show _ = (if p.1 = k' then some p.2 else alookup rest k')
      rw [if_neg (by rw [hp]; exact Ne.symm h)]
    · rw [if_neg hp]
      show (if p.1 = k' then some p.2 else alookup (aremove rest k) k') = _
      show _ = (if p.1 = k' then some p.2 else alookup rest k')
      rw [ih]

theorem alookup_eq_none_iff {κ α : Type} [DecidableEq κ]
    (m : List (κ × α)) (k : κ) : alookup m k = none ↔ k ∉ akeys m := by
  induction m with
  | nil => simp [alookup, akeys]
  | cons p rest ih =>
    show (if p.1 = k then some p.2 else alookup rest k) = none ↔ _
    by_cases h : p.1 = k
    · rw [if_pos h]
      simp [akeys, h]
    · rw [if_neg h]
      have hne : ¬ (k = p.1) := fun hh => h hh.symm
      simp [akeys, ih, hne]

theorem alookup_mem {κ α : Type} [DecidableEq κ]
    (m : List (κ × α)) (k : κ) (v : α) (h : alookup m k = some v) : (k, v) ∈ m := by
  induction m with
  | nil => simp [alookup] at h
  | cons p rest ih =>
    by_cases hp : p.1 = k
    · replace h : (if p.1 = k then some p.2 else alookup rest k) = some v := h
      rw [if_pos hp] at h
      refine List.mem_cons.mpr (Or.inl ?_)
      have h2 : p.2 = v := Option.some.inj h
      calc (k, v) = (p.1, p.2) := by rw [hp, h2]
        _ = p := rfl
    · replace h : (if p.1 = k then some p.2 else alookup rest k) = some v := h
      rw [if_neg hp] at h
      exact List.mem_cons_of_mem _ (ih h)

theorem mem_alookup_of_nodup {κ α : Type} [DecidableEq κ]
    (m : List (κ × α)) (k : κ) (v : α) (hn : NodupKeys m) (h : (k, v) ∈ m) :
    alookup m k = some v := by
  induction m with
  | nil => simp at h
  | cons p rest ih =>
    rcases List.mem_cons.mp h with h1 | h1
    · subst h1
      show (if k = k then some v else alookup rest k) = some v
      rw [if_pos rfl]
    · have hk : p.1 ≠ k := by
        intro he
        have hmem : k ∈ akeys rest := List.mem_map_of_mem Prod.fst h1
        have hnot := (List.nodup_cons.mp hn).1
        rw [he] at hnot
        exact hnot hmem
      show (if p.1 = k then some p.2 else alookup rest k) = some v
      rw [if_neg hk]
      exact ih (List.nodup_cons.mp hn).2 h1

theorem mem_ainsert {κ α : Type} [DecidableEq κ]
    (m : List (κ × α)) (k : κ) (v : α) (q : κ × α) (h : q ∈ ainsert m k v) :
    q ∈ m ∨ q = (k, v) := by
  induction m with
  | nil =>
    right
    simpa [ainsert] using h
  | cons p rest ih =>
    by_cases hp : p.1 = k
    · replace h : q ∈ (if p.1 = k then (k, v) :: rest else p :: ainsert rest k v) := h
      rw [if_pos hp] at h
      rcases List.mem_cons.mp h with h1 | h1
      · right; exact h1
      · left; exact List.mem_cons_of_mem _ h1
    · replace h : q ∈ (if p.1 = k then (k, v) :: rest else p :: ainsert rest k v) := h
      rw [if_neg hp] at h
      rcases List.mem_cons.mp h with h1 | h1
      · left; exact List.mem_cons.mpr (Or.inl h1)
      · rcases ih h1 with h2 | h2
        · left; exact List.mem_cons_of_mem _ h2
        · right; exact h2

theorem nodupKeys_ainsert {κ α : Type} [DecidableEq κ]
    (m : List (κ × α)) (k : κ) (v : α) (hn : NodupKeys m) :
    NodupKeys (ainsert m k v) := by
  induction m with
  | nil => simp [ainsert, NodupKeys, akeys]
  | cons p rest ih =>
    by_cases hp : p.1 = k
    · show NodupKeys (if p.1 = k then (k, v) :: rest else p :: ainsert rest k v)
      rw [if_pos hp]
      have hn' := List.nodup_cons.mp hn
      refine List.nodup_cons.mpr ⟨?_, hn'.2⟩
      rw [← hp]
      exact hn'.1
    · show NodupKeys (if p.1 = k then (k, v) :: rest else p :: ainsert rest k v)
      rw [if_neg hp]
      have hn' := List.nodup_cons.mp hn
      refine List.nodup_cons.mpr ⟨?_, ih hn'.2⟩
      intro hmem
      rcases List.mem_map.mp hmem with ⟨q, hq, hq1⟩
      rcases mem_ainsert rest k v q hq with h1 | h1
      · exact hn'.1 (hq1 ▸ List.mem_map_of_mem Prod.fst h1)
      · exact hp (by rw [h1] at hq1; rw [← hq1])

/-! ## JSON values -/

/-- A parsed JSON value (the output of a successful `json.loads`). -/
inductive Json where
  | null : Json
  | bool : Bool → Json
  | num : PyNum → Json
  | str : String → Json
  | arr : List Json → Json
  | obj : List (String × Json) → Json

/-- Python `j[k]` on a JSON value: `some` only when `j` is an object that has
the key (anything else raises in Python). -/
def jsonIndex (j : Json) (k : String) : Option Json :=
  match j with
  | .obj kvs => alookup kvs k
  | _ => none

/-- Python `msg.get(k, default)` on a JSON object. -/
def jsonGetD (j : Json) (k : String) (default : Json) : Json :=
  match jsonIndex j k with
  | some v => v
  | none => default

/-- Numeric value of a digit string, `none` when empty or not all digits. -/
def digitsVal (cs : List Char) : Option Nat :=
  if cs.isEmpty then none
  else cs.foldl
    (fun acc c => acc.bind (fun a =>
      if c.isDigit then some (a * 10 + (c.toNat - 48)) else none))
    (some 0)

/-- Python `int(s)` for a string: optional sign followed by digits. -/
def pyIntOfString (s : String) : Option Int :=
  match s.toList with
  | '-' :: cs => (digitsVal cs).map (fun n => -(n : Int))
  | '+' :: cs => (digitsVal cs).map (fun n => (n : Int))
  | cs => (digitsVal cs).map (fun n => (n : Int))

/-- Decimal value `ip.fp`, `none` when no digit is present. -/
def decValue (ip fp : List Char) : Option PyNum :=
  match digitsVal (ip ++ fp) with
  | some n => some ⟨(n : Int), 10 ^ fp.length - 1⟩
  | none =>
    match fp, digitsVal ip with
    | [], some n => some ⟨(n : Int), 0⟩
    | _, _ => none

/-- Python `float(s)` for a string: optional sign, digits with an optional
decimal point. -/
def pyFloatOfString (s : String) : Option PyNum :=
  let core : List Char → Option PyNum := fun cs =>
    match cs.span (fun c => c != '.') with
    | (ip, []) => decValue ip []
    | (ip, _ :: fp) => if fp.contains '.' then none else decValue ip fp
  match s.toList with
  | '-' :: cs => (core cs).map (fun x => ⟨-x.num, x.den1⟩)
  | '+' :: cs => core cs
  | cs => core cs

/-- Python `int(v)` on a JSON value. -/
def pyInt (j : Json) : Option Int :=
  match j with
  | .num q => some (pyTrunc q)
  | .bool b => some (if b then 1 else 0)
  | .str s => pyIntOfString s
  | _ => none

/-- Python `float(v)` on a JSON value. -/
def pyFloat (j : Json) : Option PyNum :=
  match j with
  | .num q => some q
  | .bool b => some (if b then ⟨1, 0⟩ else ⟨0, 0⟩)
  | .str s => pyFloatOfString s
  | _ => none

/-! ## Distance_Vector_Node: state and data -/

/-- A selected route: `routes[d] = {"cost": c, "next": n, "path": p}`. -/
structure DVRoute where
  cost : PyNum
  next : Int
  path : List Int
deriving DecidableEq

/-- A route advertised by a neighbor: `{"cost": c, "path": p}`. -/
structure AdvEntry where
  cost : PyNum
  path : List Int
deriving DecidableEq

/-- State of a `Distance_Vector_Node`. -/
structure DVState where
  id : Int
  neighbor_lat : List (Int × PyNum)
  neighbor_routes : List (Int × List (Int × AdvEntry))
  neighbor_last_update : List (Int × Int)
  routes : List (Int × DVRoute)
deriving DecidableEq

/-- The self-route `{"cost": 0.0, "next": id, "path": [id]}`. -/
def selfRoute (i : Int) : DVRoute := ⟨⟨0, 0⟩, i, [i]⟩

/-- `Distance_Vector_Node.__init__`. -/
def dv_init (i : Int) : DVState := ⟨i, [], [], [], [(i, selfRoute i)]⟩

/-- Result of a handler call: final state, broadcast payloads (each the
route table advertised by `_broadcast_routes`), and whether an uncaught
Python exception propagated out of the call. -/
structure DVResult where
  st : DVState
  sent : List (List (Int × DVRoute))
  raised : Bool
deriving DecidableEq

/-! ## Distance_Vector_Node: recomputation -/

/-- Python value equality on route records (dict `==` compares float cost
by value). -/
def routeEqB (r1 r2 : DVRoute) : Bool :=
  r1.cost.eqB r2.cost && r1.next == r2.next && r1.path == r2.path

/-- Python `==` on two route dicts: same keys, values equal by value. -/
def dictEqB (a b : List (Int × DVRoute)) : Bool :=
  a.all (fun p => match alookup b p.1 with
    | some v => routeEqB p.2 v
    | none => false) &&
  b.all (fun p => match alookup a p.1 with
    | some v => routeEqB p.2 v
    | none => false)

/-- The initial `new_routes` of `_recompute_routes`: the self-route plus one
direct candidate per neighbor. -/
def dvDirects (s : DVState) : List (Int × DVRoute) :=
  s.neighbor_lat.foldl
    (fun acc p => ainsert acc p.1 ⟨p.2, p.1, [s.id, p.1]⟩)
    [(s.id, selfRoute s.id)]

/-- Every destination mentioned by any stored neighbor advertisement. -/
def advDests (s : DVState) : List Int :=
  s.neighbor_routes.foldr (fun p acc => akeys p.2 ++ acc) []

/-- The candidate destination set of `_recompute_routes` (a Python set; we
iterate it in a canonical duplicate-free order, which does not affect the
resulting table). -/
def dvCandDests (s : DVState) : List Int :=
  (akeys (dvDirects s) ++ advDests s).dedup

/-- Comparison key `(cost, path length, next hop)` of a candidate route
(for a challenger this is `(cand_cost, len(adv_path) + 1, n)`). -/
def dvKey (r : DVRoute) : PyNum × Nat × Int := (r.cost, r.path.length, r.next)

/-- Python `<` on comparison keys: lexicographic, numbers by value. -/
def dvKeyLt (a b : PyNum × Nat × Int) : Prop :=
  a.1.ltB b.1 = true ∨
    (a.1.eqB b.1 = true ∧ (a.2.1 < b.2.1 ∨ (a.2.1 = b.2.1 ∧ a.2.2 < b.2.2)))

instance (a b : PyNum × Nat × Int) : Decidable (dvKeyLt a b) := by
  unfold dvKeyLt
  exact inferInstance

/-- The candidate for destination `d` via neighbor `n` (link cost `w`):
`none` when `n` has no stored advertisement, no entry for `d`, or its
advertised path contains `self` (loop rejection). -/
def challengerOf (s : DVState) (d n : Int) (w : PyNum) : Option DVRoute :=
  match alookup s.neighbor_routes n with
  | none => none
  | some adv =>
    if adv = [] then none
    else
      match alookup adv d with
      | none => none
      | some e =>
        if s.id ∈ e.path then none
        else some ⟨w.add e.cost, n, s.id :: e.path⟩

/-- One step of the best-candidate fold: replace `best` on strict key
improvement (`cand_key < best_key`; a missing best is the sentinel with
infinite cost, which any finite candidate beats). -/
def bestStep (s : DVState) (d : Int) (best : Option DVRoute) (p : Int × PyNum) :
    Option DVRoute :=
  match challengerOf s d p.1 p.2 with
  | none => best
  | some c =>
    match best with
    | none => some c
    | some b => if dvKeyLt (dvKey c) (dvKey b) then some c else some b

/-- The best candidate for destination `d`: start from the direct-candidate
table entry, then try each neighbor in order. -/
def bestFor (s : DVState) (d : Int) : Option DVRoute :=
  s.neighbor_lat.foldl (bestStep s d) (alookup (dvDirects s) d)

/-- `_recompute_routes`: rebuild the selected table from scratch.  A
destination is committed only when its best cost is finite, i.e. when a
candidate exists at all. -/
def dv_recompute (s : DVState) : List (Int × DVRoute) :=
  (dvCandDests s).foldl
    (fun acc d =>
      if d = s.id then acc
      else
        match bestFor s d with
        | none => acc
        | some b => ainsert acc d b)
    (dvDirects s)

/-- Tail shared by both entry points: recompute, install the new table,
broadcast it when it differs (Python dict `!=`) from the previous one. -/
def dv_recompute_and_broadcast (s : DVState) :
    DVState × List (List (Int × DVRoute)) :=
  let nr := dv_recompute s
  ({s with routes := nr}, if dictEqB nr s.routes then [] else [nr])

/-! ## Distance_Vector_Node: entry points -/

/-- `link_has_been_updated`. -/
def dv_link (s : DVState) (neighbor : Int) (latency : PyNum) : DVResult :=
  let s1 :=
    if latency.eqB (PyNum.ofInt (-1)) then
      { s with
        neighbor_lat := aremove s.neighbor_lat neighbor,
        neighbor_routes := aremove s.neighbor_routes neighbor,
        neighbor_last_update := aremove s.neighbor_last_update neighbor }
    else
      { s with neighbor_lat := ainsert s.neighbor_lat neighbor latency }
  let r := dv_recompute_and_broadcast s1
  ⟨r.1, r.2, false⟩

/-- `get_next_hop` (DV). -/
def dv_get_next_hop (s : DVState) (destination : Int) : Int :=
  if destination = s.id then s.id
  else
    match alookup s.routes destination with
    | none => -1
    | some r => r.next

/-- Is the parsed message a dict whose `type` field equals `"DV_PATH"`? -/
def dvTyped (msg : Json) : Bool :=
  match msg with
  | .obj kvs =>
    match alookup kvs "type" with
    | some (.str t) => t == "DV_PATH"
    | _ => false
  | _ => false

/-- Parse one entry of the advertised route set.  `.error` models an
uncaught exception (non-integer destination key, missing or
non-float-convertible cost, missing path, non-integer path element);
`.ok none` models `continue` (path not a list, empty, or not starting at
the origin). -/
def entryParse (origin : Int) (kv : String × Json) :
    Except Unit (Option (Int × AdvEntry)) :=
  match pyIntOfString kv.1 with
  | none => .error ()
  | some d =>
    match jsonIndex kv.2 "cost" with
    | none => .error ()
    | some cv =>
      match pyFloat cv with
      | none => .error ()
      | some cost =>
        match jsonIndex kv.2 "path" with
        | none => .error ()
        | some pv =>
          match pv with
          | .arr xs =>
            match xs.mapM pyInt with
            | none => .error ()
            | some path =>
              if path = [] ∨ path.head? ≠ some origin then .ok none
              else .ok (some (d, ⟨cost, path⟩))
          | _ => .ok none

/-- Parse the whole advertised route set, stopping at the first entry that
raises. -/
def dvParseRoutes (origin : Int) (kvs : List (String × Json)) :
    Except Unit (List (Int × AdvEntry)) :=
  kvs.foldlM
    (fun acc kv => (entryParse origin kv).map (fun r =>
      match r with
      | none => acc
      | some (d, e) => ainsert acc d e))
    []

/-- Python `{**old, **parsed}`: union with the new entries winning. -/
def mergeD (old parsed : List (Int × AdvEntry)) : List (Int × AdvEntry) :=
  parsed.foldl (fun acc p => ainsert acc p.1 p.2) old

/-- Outcome of the parsing phase of `process_incoming_routing_message`:
an uncaught exception, a silent drop, or the state just before
recomputation. -/
inductive DVPre where
  | raise : DVPre
  | drop : DVPre
  | go : DVState → DVPre
deriving DecidableEq

/-- Parsing/installation phase of `process_incoming_routing_message`
(everything before `_recompute_routes`), at current simulated time `t`. -/
def dv_process_pre (s : DVState) (t : Int) (j : Option Json) : DVPre :=
  match j with
  | none => .raise
  | some msg =>
    if dvTyped msg then
      match (jsonIndex msg "origin").bind pyInt with
      | none => .raise
      | some origin =>
        match alookup s.neighbor_lat origin with
        | none => .drop
        | some _ =>
          match jsonGetD msg "routes" (.obj []) with
          | .obj kvs =>
            match dvParseRoutes origin kvs with
            | .error _ => .raise
            | .ok parsed =>
              let last_t := (alookup s.neighbor_last_update origin).getD (-1)
              let old := (alookup s.neighbor_routes origin).getD []
              let stored :=
                if t = last_t ∧ parsed.length < old.length then mergeD old parsed
                else parsed
              .go { s with
                neighbor_routes := ainsert s.neighbor_routes origin stored,
                neighbor_last_update := ainsert s.neighbor_last_update origin t }
          | _ => .drop
    else .drop

/-- `process_incoming_routing_message` (DV).  Every raise point precedes any
state mutation, so a raising call leaves the state unchanged. -/
def dv_process (s : DVState) (t : Int) (j : Option Json) : DVResult :=
  match dv_process_pre s t j with
  | .raise => ⟨s, [], true⟩
  | .drop => ⟨s, [], false⟩
  | .go s1 =>
    let r := dv_recompute_and_broadcast s1
    ⟨r.1, r.2, false⟩

/-- One simulator callback on a DV node. -/
inductive DVStep : DVState → DVState → Prop where
  | link : ∀ (s : DVState) (n : Int) (lat : PyNum), DVStep s (dv_link s n lat).st
  | msg : ∀ (s : DVState) (t : Int) (j : Option Json), DVStep s (dv_process s t j).st

/-- States a DV node can be in after any sequence of simulator callbacks. -/
inductive DVReachable : DVState → Prop where
  | init : ∀ i : Int, DVReachable (dv_init i)
  | step : ∀ (s s' : DVState), DVReachable s → DVStep s s' → DVReachable s'

/-! ## Link_State_Node: state and data -/

/-- An LSDB record: `{"seq": s, "neighbors": {nbr: cost}}` (all values are
Python ints by the installing code paths). -/
structure LSRec where
  seq : Int
  neighbors : List (Int × Int)
deriving DecidableEq

/-- State of a `Link_State_Node`. -/
structure LSState where
  id : Int
  neighbor_lat : List (Int × Int)
  lsdb : List (Int × LSRec)
  seq : Int
  routing_table : List (Int × Int)
  dist : List (Int × Int)
deriving DecidableEq

/-- `Link_State_Node.__init__` (installs the initial empty self LSA). -/
def ls_init (i : Int) : LSState := ⟨i, [], [(i, ⟨0, []⟩)], 0, [], []⟩

/-- Result of a handler call on a link-state node: final state, flooded
messages, and whether an uncaught exception propagated (never, for this
node: every fallible operation is guarded by `try`/`except`). -/
structure LSResult where
  st : LSState
  sent : List Json
  raised : Bool

/-! ## Link_State_Node: Dijkstra over the merged LSDB graph -/

/-- `add_edge` of `_build_merged_adjacency`: install an undirected edge
both ways (with `setdefault` creating empty rows first). -/
def addEdge (adj : List (Int × List (Int × Int))) (u v : Int) (w : Int) :
    List (Int × List (Int × Int)) :=
  let adj1 := if (alookup adj u).isSome then adj else ainsert adj u []
  let adj2 := if (alookup adj1 v).isSome then adj1 else ainsert adj1 v []
  let adj3 := ainsert adj2 u (ainsert ((alookup adj2 u).getD []) v w)
  ainsert adj3 v (ainsert ((alookup adj3 v).getD []) u w)

/-- `_build_merged_adjacency`: merge every LSDB record into an undirected
adjacency dict, dropping negative weights. -/
def ls_build_adj (s : LSState) : List (Int × List (Int × Int)) :=
  s.lsdb.foldl
    (fun adj rec0 =>
      rec0.2.neighbors.foldl
        (fun adj p => if 0 ≤ p.2 then addEdge adj rec0.1 p.1 p.2 else adj)
        adj)
    []

/-- Working state of the Dijkstra loop: tentative distances, first hops,
and the priority queue as a multiset of `(distance, node)` pairs. -/
structure DijkState where
  dist : List (Int × Int)
  first_hop : List (Int × Int)
  pq : List (Int × Int)
deriving DecidableEq

/-- Lexicographic order on heap entries (Python tuple `<`). -/
def pairLtB (a b : Int × Int) : Bool :=
  decide (a.1 < b.1) || (a.1 == b.1 && decide (a.2 < b.2))

/-- `heapq.heappop`: remove and return the lexicographically smallest entry. -/
def popMin (pq : List (Int × Int)) : Option ((Int × Int) × List (Int × Int)) :=
  match pq with
  | [] => none
  | p :: rest =>
    let m := rest.foldl (fun a b => if pairLtB b a then b else a) p
    some (m, pq.erase m)

/-- Relax all edges out of `u` (current distance `d`): on a strictly
smaller tentative distance, update `dist`, record the first hop (the
neighbor itself when `u` is the source, inherited otherwise), and push. -/
def relaxAll (src u : Int) (d : Int) (nbrs : List (Int × Int))
    (st : DijkState) : DijkState :=
  nbrs.foldl
    (fun st p =>
      let nd := d + p.2
      let better :=
        match alookup st.dist p.1 with
        | none => true
        | some cur => decide (nd < cur)
      if better then
        { dist := ainsert st.dist p.1 nd,
          first_hop := ainsert st.first_hop p.1
            (if u = src then p.1 else (alookup st.first_hop u).getD (-1)),
          pq := (nd, p.1) :: st.pq }
      else st)
    st

/-- The Dijkstra `while pq` loop, with fuel (any deterministic function of
the adjacency; no claim depends on the loop running to completion). -/
def dijkstraLoop (adj : List (Int × List (Int × Int))) (src : Int) :
    Nat → DijkState → List (Int × Int) × List (Int × Int)
  | 0, st => (st.dist, st.first_hop)
  | fuel + 1, st =>
    match popMin st.pq with
    | none => (st.dist, st.first_hop)
    | some (du, pq') =>
      if alookup st.dist du.2 = some du.1 then
        dijkstraLoop adj src fuel
          (relaxAll src du.2 du.1 ((alookup adj du.2).getD [])
            { st with pq := pq' })
      else
        dijkstraLoop adj src fuel { st with pq := pq' }

/-- Fuel budget for the Dijkstra loop: a deterministic function of the
adjacency structure, generous enough for every realistic run. -/
def dijkFuel (adj : List (Int × List (Int × Int))) : Nat :=
  let sz := adj.foldl (fun a p => a + p.2.length + 1) 1
  let ws := adj.foldl (fun a p => a + p.2.foldl (fun b q => b + q.2.toNat) 0) 0
  (sz + ws + 2) * (sz + 2)

/-- `_recompute_routes` (LS): Dijkstra from `self.id` over the merged LSDB
graph, producing the distance map and the first-hop routing table. -/
def ls_recompute (s : LSState) : List (Int × Int) × List (Int × Int) :=
  let adj := ls_build_adj s
  match alookup adj s.id with
  | none => ([], [])
  | some _ =>
    dijkstraLoop adj s.id (dijkFuel adj)
      ⟨[(s.id, 0)], [], [(0, s.id)]⟩

/-- Run `_recompute_routes` and install its results into the node state. -/
def ls_apply_recompute (s : LSState) : LSState :=
  let r := ls_recompute s
  { s with dist := r.1, routing_table := r.2 }

/-! ## Link_State_Node: entry points -/

/-- The LSA originated by `_originate_and_flood_lsa` (JSON keys are
strings; the costs are already Python ints). -/
def ls_lsa (s : LSState) : Json :=
  .obj [("type", .str "LSA"), ("origin", .num (PyNum.ofInt s.id)),
        ("seq", .num (PyNum.ofInt s.seq)),
        ("neighbors", .obj (s.neighbor_lat.map
          (fun p => (toString p.1, Json.num (PyNum.ofInt p.2)))))]

/-- `link_has_been_updated` (LS): update the neighbor table (`int()`
truncates the latency), then originate and flood a fresh LSA and
recompute. -/
def ls_link (s : LSState) (neighbor : Int) (latency : PyNum) : LSResult :=
  let s1 :=
    if latency.eqB (PyNum.ofInt (-1)) then
      { s with neighbor_lat := aremove s.neighbor_lat neighbor }
    else
      { s with neighbor_lat := ainsert s.neighbor_lat neighbor (pyTrunc latency) }
  let s2 := { s1 with seq := s1.seq + 1 }
  let s3 := { s2 with lsdb := ainsert s2.lsdb s2.id ⟨s2.seq, s2.neighbor_lat⟩ }
  ⟨ls_apply_recompute s3, [ls_lsa s2], false⟩

/-- `get_next_hop` (LS). -/
def ls_get_next_hop (s : LSState) (destination : Int) : Int :=
  if destination = s.id then s.id
  else (alookup s.routing_table destination).getD (-1)

/-- Is the parsed message a dict whose `type` field equals `"LSA"`? -/
def lsaTyped (msg : Json) : Bool :=
  match msg with
  | .obj kvs =>
    match alookup kvs "type" with
    | some (.str t) => t == "LSA"
    | _ => false
  | _ => false

/-- `int(msg["origin"])`, `none` when it raises. -/
def lsOrigin (msg : Json) : Option Int := (jsonIndex msg "origin").bind pyInt

/-- `int(msg["seq"])`, `none` when it raises. -/
def lsSeq (msg : Json) : Option Int := (jsonIndex msg "seq").bind pyInt

/-- One entry of the advertised neighbor-cost map: install `int(k), int(v)`
when both conversions succeed and the converted value is non-negative,
drop the entry otherwise. -/
def lsNbrStep (acc : List (Int × Int)) (kv : String × Json) : List (Int × Int) :=
  match pyIntOfString kv.1, pyInt kv.2 with
  | some nk, some nv => if 0 ≤ nv then ainsert acc nk nv else acc
  | _, _ => acc

/-- Parse the advertised neighbor-cost map: offending entries are dropped
individually; a non-dict map is treated as empty. -/
def lsParseNeighbors (j : Json) : List (Int × Int) :=
  match j with
  | .obj kvs => kvs.foldl lsNbrStep []
  | _ => []

/-- Acceptance tail of `process_incoming_routing_message` (LS): install the
record, re-flood the received message unmodified, recompute. -/
def lsInstall (s : LSState) (msg : Json) (origin seq0 : Int)
    (incoming : List (Int × Int)) : LSResult :=
  let s1 := { s with lsdb := ainsert s.lsdb origin ⟨seq0, incoming⟩ }
  ⟨ls_apply_recompute s1, [msg], false⟩

/-- `process_incoming_routing_message` (LS).  Every fallible step is inside
`try`/`except`, so the handler never raises. -/
def ls_process (s : LSState) (j : Option Json) : LSResult :=
  match j with
  | none => ⟨s, [], false⟩
  | some msg =>
    if lsaTyped msg then
      match lsOrigin msg, lsSeq msg with
      | some origin, some seq0 =>
        if origin = s.id then ⟨s, [], false⟩
        else
          let incoming := lsParseNeighbors (jsonGetD msg "neighbors" (.obj []))
          match alookup s.lsdb origin with
          | some rec0 =>
            if seq0 ≤ rec0.seq then ⟨s, [], false⟩
            else lsInstall s msg origin seq0 incoming
          | none => lsInstall s msg origin seq0 incoming
      | _, _ => ⟨s, [], false⟩
    else ⟨s, [], false⟩

/-! ## Helper lemmas: generic folds -/

theorem foldl_preserve {α β : Type} (P : β → Prop) (f : β → α → β) :
    ∀ (L : List α) (init : β), P init → (∀ acc x, x ∈ L → P acc → P (f acc x)) →
      P (L.foldl f init) := by
  intro L
  induction L with
  | nil => intro init h _; exact h
  | cons x L ih =>
    intro init h hstep
    exact ih (f init x) (hstep init x (List.mem_cons_self x L) h)
      (fun acc y hy => hstep acc y (List.mem_cons_of_mem x hy))

/-! ## Helper lemmas: the comparison-key order -/

theorem dvKeyLt_iff (a b : PyNum × Nat × Int) :
    dvKeyLt a b ↔
      (a.1.toRat < b.1.toRat ∨
        (a.1.toRat = b.1.toRat ∧
          (a.2.1 < b.2.1 ∨ (a.2.1 = b.2.1 ∧ a.2.2 < b.2.2)))) := by
  unfold dvKeyLt
  rw [PyNum.ltB_iff, PyNum.eqB_iff]

theorem dvKeyLt_irrefl (a : PyNum × Nat × Int) : ¬ dvKeyLt a a := by
  rw [dvKeyLt_iff]
  rintro (h | ⟨_, h | ⟨_, h⟩⟩) <;> exact lt_irrefl _ h

theorem dvKeyLt_trans {a b c : PyNum × Nat × Int}
    (h1 : dvKeyLt a b) (h2 : dvKeyLt b c) : dvKeyLt a c := by
  rw [dvKeyLt_iff] at h1 h2 ⊢
  rcases h1 with h1 | ⟨e1, h1⟩ <;> rcases h2 with h2 | ⟨e2, h2⟩
  · left; exact lt_trans h1 h2
  · left; exact lt_of_lt_of_eq h1 e2
  · left; exact lt_of_eq_of_lt e1 h2
  · right
    refine ⟨e1.trans e2, ?_⟩
    rcases h1 with h1 | ⟨e1', h1⟩ <;> rcases h2 with h2 | ⟨e2', h2⟩
    · left; exact lt_trans h1 h2
    · left; exact lt_of_lt_of_eq h1 e2'
    · left; exact lt_of_eq_of_lt e1' h2
    · right; exact ⟨e1'.trans e2', lt_trans h1 h2⟩

/-- Value equivalence of comparison keys. -/
def dvKeyEqv (a b : PyNum × Nat × Int) : Prop :=
  a.1.toRat = b.1.toRat ∧ a.2.1 = b.2.1 ∧ a.2.2 = b.2.2

theorem dvKeyLt_total (a b : PyNum × Nat × Int) :
    dvKeyLt a b ∨ dvKeyEqv a b ∨ dvKeyLt b a := by
  rw [dvKeyLt_iff, dvKeyLt_iff]
  rcases lt_trichotomy a.1.toRat b.1.toRat with h1 | h1 | h1
  · left; left; exact h1
  · rcases lt_trichotomy a.2.1 b.2.1 with h2 | h2 | h2
    · left; right; exact ⟨h1, Or.inl h2⟩
    · rcases lt_trichotomy a.2.2 b.2.2 with h3 | h3 | h3
      · left; right; exact ⟨h1, Or.inr ⟨h2, h3⟩⟩
      · right; left; exact ⟨h1, h2, h3⟩
      · right; right; right; exact ⟨h1.symm, Or.inr ⟨h2.symm, h3⟩⟩
    · right; right; right; exact ⟨h1.symm, Or.inl h2⟩
  · right; right; left; exact h1

theorem dvKeyLt_congr_left {a a' b : PyNum × Nat × Int} (h : dvKeyEqv a a') :
    dvKeyLt a b ↔ dvKeyLt a' b := by
  rw [dvKeyLt_iff, dvKeyLt_iff, h.1, h.2.1, h.2.2]

theorem dvKeyLt_shift {c b r : PyNum × Nat × Int}
    (h1 : ¬ dvKeyLt c b) (h2 : ¬ dvKeyLt b r) : ¬ dvKeyLt c r := by
  intro hcr
  rcases dvKeyLt_total c b with h | h | h
  · exact h1 h
  · exact h2 ((dvKeyLt_congr_left h).mp hcr)
  · exact h2 (dvKeyLt_trans h hcr)

/-! ## Helper lemmas: the best-candidate fold -/

/-- The candidate pool for destination `d`: the direct-candidate table
entry (if any) followed by the non-rejected challengers, one per neighbor
in order. -/
def dvCandList (s : DVState) (d : Int) : List DVRoute :=
  (alookup (dvDirects s) d).toList ++
    s.neighbor_lat.filterMap (fun p => challengerOf s d p.1 p.2)

theorem mem_optList {α : Type} (o : Option α) (x : α) (l : List α) :
    x ∈ o.toList ++ l ↔ o = some x ∨ x ∈ l := by
  cases o with
  | none =>
    have h0 : (none : Option α).toList = [] := rfl
    rw [h0, List.nil_append]
    simp
  | some a =>
    have h0 : (some a).toList = [a] := rfl
    rw [h0]
    constructor
    · intro h
      rcases List.mem_append.mp h with h | h
      · left
        rcases List.mem_singleton.mp h with h
        rw [h]
      · right; exact h
    · intro h
      rcases h with h | h
      · exact List.mem_append_left _
          (List.mem_singleton.mpr (Option.some.inj h).symm)
      · exact List.mem_append_right _ h

theorem bestFold_spec (s : DVState) (d : Int) :
    ∀ (L : List (Int × PyNum)) (init : Option DVRoute),
      (L.foldl (bestStep s d) init = none ↔
        init = none ∧ L.filterMap (fun p => challengerOf s d p.1 p.2) = []) ∧
      (∀ r, L.foldl (bestStep s d) init = some r →
        r ∈ init.toList ++ L.filterMap (fun p => challengerOf s d p.1 p.2) ∧
        ∀ c ∈ init.toList ++ L.filterMap (fun p => challengerOf s d p.1 p.2),
          ¬ dvKeyLt (dvKey c) (dvKey r)) := by
  intro L
  induction L with
  | nil =>
    intro init
    refine ⟨?_, ?_⟩
    · constructor
      · intro h; exact ⟨h, rfl⟩
      · intro h; exact h.1
    · intro r hr
      replace hr : init = some r := hr
      subst hr
      refine ⟨(mem_optList _ _ _).mpr (Or.inl rfl), ?_⟩
      intro c hc
      rcases (mem_optList _ _ _).mp hc with h | h
      · rcases Option.some.inj h with h
        rw [h]
        exact dvKeyLt_irrefl _
      · exact absurd h (List.not_mem_nil c)
  | cons p L ih =>
    intro init
    have hfold : (p :: L).foldl (bestStep s d) init
        = L.foldl (bestStep s d) (bestStep s d init p) := rfl
    cases hc : challengerOf s d p.1 p.2 with
    | none =>
      have hstep : bestStep s d init p = init := by
        unfold bestStep
        rw [hc]
      have hfm : (p :: L).filterMap (fun p => challengerOf s d p.1 p.2)
          = L.filterMap (fun p => challengerOf s d p.1 p.2) := by
        rw [List.filterMap_cons, hc]
      rw [hfold, hstep, hfm]
      exact ih init
    | some c =>
      have hfm : (p :: L).filterMap (fun p => challengerOf s d p.1 p.2)
          = c :: L.filterMap (fun p => challengerOf s d p.1 p.2) := by
        rw [List.filterMap_cons, hc]
      cases init with
      | none =>
        have hstep : bestStep s d none p = some c := by
          unfold bestStep
          rw [hc]
        rw [hfold, hstep, hfm]
        refine ⟨?_, ?_⟩
        · constructor
          · intro h
            obtain ⟨h1, _⟩ := (ih (some c)).1.mp h
            exact absurd h1 (by simp)
          · rintro ⟨_, h2⟩
            exact absurd h2 (by simp)
        · intro r hr
          obtain ⟨hmem, hmin⟩ := (ih (some c)).2 r hr
          refine ⟨?_, ?_⟩
          · rcases (mem_optList _ _ _).mp hmem with h | h
            · exact (mem_optList _ _ _).mpr
                (Or.inr (List.mem_cons.mpr (Or.inl (Option.some.inj h).symm)))
            · exact (mem_optList _ _ _).mpr
                (Or.inr (List.mem_cons_of_mem _ h))
          · intro x hx
            rcases (mem_optList _ _ _).mp hx with h | h
            · exact absurd h (by simp)
            · rcases List.mem_cons.mp h with h | h
              · refine hmin x ((mem_optList _ _ _).mpr (Or.inl ?_))
                rw [h]
              · exact hmin x ((mem_optList _ _ _).mpr (Or.inr h))
      | some b =>
        by_cases hlt : dvKeyLt (dvKey c) (dvKey b)
        · have hstep : bestStep s d (some b) p = some c := by
            unfold bestStep
            rw [hc]
            simp only [if_pos hlt]
          rw [hfold, hstep, hfm]
          refine ⟨?_, ?_⟩
          · constructor
            · intro h
              obtain ⟨h1, _⟩ := (ih (some c)).1.mp h
              exact absurd h1 (by simp)
            · rintro ⟨h1, _⟩
              exact absurd h1 (by simp)
          · intro r hr
            obtain ⟨hmem, hmin⟩ := (ih (some c)).2 r hr
            have hcr : ¬ dvKeyLt (dvKey c) (dvKey r) :=
              hmin c ((mem_optList _ _ _).mpr (Or.inl rfl))
            refine ⟨?_, ?_⟩
            · rcases (mem_optList _ _ _).mp hmem with h | h
              · exact (mem_optList _ _ _).mpr
                  (Or.inr (List.mem_cons.mpr (Or.inl (Option.some.inj h).symm)))
              · exact (mem_optList _ _ _).mpr
                  (Or.inr (List.mem_cons_of_mem _ h))
            · intro x hx
              rcases (mem_optList _ _ _).mp hx with h | h
              · rcases Option.some.inj h with h
                rw [← h]
                intro hbr
                exact hcr (dvKeyLt_trans hlt hbr)
              · rcases List.mem_cons.mp h with h | h
                · refine hmin x ((mem_optList _ _ _).mpr (Or.inl ?_))
                  rw [h]
                · exact hmin x ((mem_optList _ _ _).mpr (Or.inr h))
        · have hstep : bestStep s d (some b) p = some b := by
            unfold bestStep
            rw [hc]
            simp only [if_neg hlt]
          rw [hfold, hstep, hfm]
          refine ⟨?_, ?_⟩
          · constructor
            · intro h
              obtain ⟨h1, _⟩ := (ih (some b)).1.mp h
              exact absurd h1 (by simp)
            · rintro ⟨h1, _⟩
              exact absurd h1 (by simp)
          · intro r hr
            obtain ⟨hmem, hmin⟩ := (ih (some b)).2 r hr
            have hbr : ¬ dvKeyLt (dvKey b) (dvKey r) :=
              hmin b ((mem_optList _ _ _).mpr (Or.inl rfl))
            refine ⟨?_, ?_⟩
            · rcases (mem_optList _ _ _).mp hmem with h | h
              · exact (mem_optList _ _ _).mpr (Or.inl h)
              · exact (mem_optList _ _ _).mpr
                  (Or.inr (List.mem_cons_of_mem _ h))
            · intro x hx
              rcases (mem_optList _ _ _).mp hx with h | h
              · exact hmin x ((mem_optList _ _ _).mpr (Or.inl h))
              · rcases List.mem_cons.mp h with h | h
                · rw [h]
                  exact dvKeyLt_shift hlt hbr
                · exact hmin x ((mem_optList _ _ _).mpr (Or.inr h))

theorem bestFor_spec (s : DVState) (d : Int) :
    (bestFor s d = none ↔ dvCandList s d = []) ∧
    (∀ r, bestFor s d = some r →
      r ∈ dvCandList s d ∧
      ∀ c ∈ dvCandList s d, ¬ dvKeyLt (dvKey c) (dvKey r)) := by
  have h := bestFold_spec s d s.neighbor_lat (alookup (dvDirects s) d)
  constructor
  · rw [show bestFor s d
        = s.neighbor_lat.foldl (bestStep s d) (alookup (dvDirects s) d) from rfl]
    rw [h.1]
    unfold dvCandList
    constructor
    · rintro ⟨h1, h2⟩
      rw [h1, h2]
      rfl
    · intro hh
      rcases List.append_eq_nil.mp hh with ⟨h1, h2⟩
      refine ⟨?_, h2⟩
      cases hinit : alookup (dvDirects s) d with
      | none => rfl
      | some v => rw [hinit] at h1; simp at h1
  · intro r hr
    exact h.2 r hr

/-! ## Helper lemmas: recomputation table lookups -/

/-- The per-destination commit step of `dv_recompute`. -/
def commitStep (s : DVState) (acc : List (Int × DVRoute)) (d : Int) :
    List (Int × DVRoute) :=
  if d = s.id then acc
  else
    match bestFor s d with
    | none => acc
    | some b => ainsert acc d b

theorem dv_recompute_eq_foldl (s : DVState) :
    dv_recompute s = (dvCandDests s).foldl (commitStep s) (dvDirects s) := rfl

theorem commit_foldl_not_mem (s : DVState) (d : Int) :
    ∀ (L : List Int) (acc : List (Int × DVRoute)), d ∉ L →
      alookup (L.foldl (commitStep s) acc) d = alookup acc d := by
  intro L
  induction L with
  | nil => intro acc _; rfl
  | cons e L ih =>
    intro acc hd
    have hde : d ≠ e := fun h => hd (h ▸ List.mem_cons_self e L)
    have hdL : d ∉ L := fun h => hd (List.mem_cons_of_mem e h)
    show alookup (L.foldl (commitStep s) (commitStep s acc e)) d = _
    rw [ih (commitStep s acc e) hdL]
    unfold commitStep
    by_cases he : e = s.id
    · rw [if_pos he]
    · rw [if_neg he]
      cases hb : bestFor s e with
      | none => rfl
      | some b => exact alookup_ainsert_ne _ _ _ _ hde

theorem bestFor_none_directs (s : DVState) (d : Int)
    (h : bestFor s d = none) : alookup (dvDirects s) d = none :=
  ((bestFold_spec s d s.neighbor_lat (alookup (dvDirects s) d)).1.mp h).1

theorem commit_foldl_mem (s : DVState) (d : Int) (hd : d ≠ s.id) :
    ∀ (L : List Int) (acc : List (Int × DVRoute)), L.Nodup → d ∈ L →
      alookup acc d = alookup (dvDirects s) d →
      alookup (L.foldl (commitStep s) acc) d = bestFor s d := by
  intro L
  induction L with
  | nil => intro acc _ hmem _; exact absurd hmem (List.not_mem_nil d)
  | cons e L ih =>
    intro acc hnd hmem hacc
    have hnd' := List.nodup_cons.mp hnd
    show alookup (L.foldl (commitStep s) (commitStep s acc e)) d = _
    by_cases hde : d = e
    · subst hde
      have hdL : d ∉ L := hnd'.1
      rw [commit_foldl_not_mem s d L _ hdL]
      unfold commitStep
      rw [if_neg hd]
      cases hb : bestFor s d with
      | none =>
        rw [hacc]
        exact bestFor_none_directs s d hb
      | some b => exact alookup_ainsert_self _ _ _
    · have hmem' : d ∈ L := by
        rcases List.mem_cons.mp hmem with h | h
        · exact absurd h hde
        · exact h
      refine ih (commitStep s acc e) hnd'.2 hmem' ?_
      unfold commitStep
      by_cases he : e = s.id
      · rw [if_pos he]; exact hacc
      · rw [if_neg he]
        cases hb : bestFor s e with
        | none => exact hacc
        | some b => rw [alookup_ainsert_ne _ _ _ _ hde]; exact hacc

theorem mem_foldr_dests (L : List (Int × List (Int × AdvEntry)))
    (n d : Int) (adv : List (Int × AdvEntry))
    (h1 : (n, adv) ∈ L) (h2 : d ∈ akeys adv) :
    d ∈ L.foldr (fun p acc => akeys p.2 ++ acc) [] := by
  induction L with
  | nil => exact absurd h1 (List.not_mem_nil _)
  | cons q rest ih =>
    show d ∈ akeys q.2 ++ rest.foldr (fun p acc => akeys p.2 ++ acc) []
    rcases List.mem_cons.mp h1 with h | h
    · refine List.mem_append_left _ ?_
      rw [← h]
      exact h2
    · exact List.mem_append_right _ (ih h)

theorem mem_advDests (s : DVState) (n d : Int)
    (adv : List (Int × AdvEntry)) (h1 : (n, adv) ∈ s.neighbor_routes)
    (h2 : d ∈ akeys adv) : d ∈ advDests s :=
  mem_foldr_dests s.neighbor_routes n d adv h1 h2

theorem challengerOf_none_of_not_advDest (s : DVState) (d n : Int) (w : PyNum)
    (h : d ∉ advDests s) : challengerOf s d n w = none := by
  cases hadv : alookup s.neighbor_routes n with
  | none => simp [challengerOf, hadv]
  | some adv =>
    simp only [challengerOf, hadv]
    by_cases hnil : adv = []
    · rw [if_pos hnil]
    · rw [if_neg hnil]
      cases he : alookup adv d with
      | none => rfl
      | some e =>
        exfalso
        have hmem : d ∈ akeys adv := by
          by_contra hcon
          rw [(alookup_eq_none_iff adv d).mpr hcon] at he
          exact Option.noConfusion he
        exact h (mem_advDests s n d adv (alookup_mem _ _ _ hadv) hmem)

theorem dv_recompute_lookup (s : DVState) (d : Int) (hd : d ≠ s.id) :
    alookup (dv_recompute s) d = bestFor s d := by
  rw [dv_recompute_eq_foldl]
  by_cases hmem : d ∈ dvCandDests s
  · exact commit_foldl_mem s d hd (dvCandDests s) (dvDirects s)
      (List.nodup_dedup _) hmem rfl
  · rw [commit_foldl_not_mem s d (dvCandDests s) (dvDirects s) hmem]
    have hdir : d ∉ akeys (dvDirects s) := by
      intro h
      exact hmem (List.mem_dedup.mpr (List.mem_append_left _ h))
    have hadv : d ∉ advDests s := by
      intro h
      exact hmem (List.mem_dedup.mpr (List.mem_append_right _ h))
    have hdirn : alookup (dvDirects s) d = none :=
      (alookup_eq_none_iff _ _).mpr hdir
    rw [hdirn]
    symm
    show s.neighbor_lat.foldl (bestStep s d) (alookup (dvDirects s) d) = none
    rw [(bestFold_spec s d s.neighbor_lat (alookup (dvDirects s) d)).1]
    refine ⟨hdirn, ?_⟩
    rw [List.filterMap_eq_nil]
    intro p _
    exact challengerOf_none_of_not_advDest s d p.1 p.2 hadv

/-! ## Helper lemmas: candidate shapes and table well-formedness -/

theorem dvDirects_shape (s : DVState) (d : Int) (r : DVRoute) (hd : d ≠ s.id)
    (h : alookup (dvDirects s) d = some r) : r.next = d ∧ r.path = [s.id, d] := by
  unfold dvDirects at h
  refine (foldl_preserve
    (fun acc => ∀ d r, d ≠ s.id → alookup acc d = some r →
      r.next = d ∧ r.path = [s.id, d])
    _ s.neighbor_lat _ ?_ ?_) d r hd h
  · intro d' r' hd' h'
    replace h' : (if s.id = d' then some (selfRoute s.id) else none) = some r' := h'
    rw [if_neg (Ne.symm hd')] at h'
    exact Option.noConfusion h'
  · intro acc p _ hP d' r' hd' h'
    by_cases hdp : d' = p.1
    · subst hdp
      rw [alookup_ainsert_self] at h'
      rcases Option.some.inj h' with h''
      rw [← h'']
      exact ⟨rfl, rfl⟩
    · rw [alookup_ainsert_ne _ _ _ _ hdp] at h'
      exact hP d' r' hd' h'

theorem challengerOf_shape (s : DVState) (d n : Int) (w : PyNum) (c : DVRoute)
    (h : challengerOf s d n w = some c) :
    ∃ adv e, alookup s.neighbor_routes n = some adv ∧ alookup adv d = some e ∧
      s.id ∉ e.path ∧ c = ⟨w.add e.cost, n, s.id :: e.path⟩ := by
  cases hadv : alookup s.neighbor_routes n with
  | none => simp [challengerOf, hadv] at h
  | some adv =>
    simp only [challengerOf, hadv] at h
    by_cases hnil : adv = []
    · rw [if_pos hnil] at h
      exact Option.noConfusion h
    · rw [if_neg hnil] at h
      cases he : alookup adv d with
      | none =>
        simp only [he] at h
        exact Option.noConfusion h
      | some e =>
        simp only [he] at h
        by_cases hself : s.id ∈ e.path
        · rw [if_pos hself] at h
          exact Option.noConfusion h
        · rw [if_neg hself] at h
          exact ⟨adv, e, rfl, he, hself, (Option.some.inj h).symm⟩

theorem nodupKeys_dvDirects (s : DVState) : NodupKeys (dvDirects s) := by
  unfold dvDirects
  refine foldl_preserve NodupKeys _ s.neighbor_lat _ ?_ ?_
  · simp [NodupKeys, akeys]
  · intro acc p _ h
    exact nodupKeys_ainsert _ _ _ h

theorem nodupKeys_dv_recompute (s : DVState) : NodupKeys (dv_recompute s) := by
  rw [dv_recompute_eq_foldl]
  refine foldl_preserve NodupKeys _ _ _ (nodupKeys_dvDirects s) ?_
  intro acc d _ h
  unfold commitStep
  by_cases hd : d = s.id
  · rw [if_pos hd]
    exact h
  · rw [if_neg hd]
    cases bestFor s d with
    | none => exact h
    | some b => exact nodupKeys_ainsert _ _ _ h

theorem routeEqB_refl (r : DVRoute) : routeEqB r r = true := by
  simp [routeEqB, PyNum.eqB]

theorem dictEqB_refl (m : List (Int × DVRoute)) (h : NodupKeys m) :
    dictEqB m m = true := by
  unfold dictEqB
  rw [Bool.and_eq_true]
  constructor <;>
  · rw [List.all_eq_true]
    intro p hp
    have hl : alookup m p.1 = some p.2 := mem_alookup_of_nodup m p.1 p.2 h hp
    rw [hl]
    exact routeEqB_refl p.2

/-! ## Helper lemmas: record-field irrelevance of recomputation -/

theorem dv_recompute_routes_irrel (s : DVState) (r : List (Int × DVRoute)) :
    dv_recompute { s with routes := r } = dv_recompute s := by
  cases s
  rfl

theorem ls_recompute_irrel (s : LSState) (d rt : List (Int × Int)) :
    ls_recompute { s with dist := d, routing_table := rt } = ls_recompute s := by
  cases s
  rfl

/-! ## Helper lemmas: the same-time merge -/

theorem alookup_mergeD_none :
    ∀ (P old : List (Int × AdvEntry)) (k : Int), alookup P k = none →
      alookup (mergeD old P) k = alookup old k := by
  intro P
  induction P with
  | nil => intro old k _; rfl
  | cons p P ih =>
    intro old k h
    have hpk : p.1 ≠ k := by
      intro he
      replace h : (if p.1 = k then some p.2 else alookup P k) = none := h
      rw [if_pos he] at h
      exact Option.noConfusion h
    have hPk : alookup P k = none := by
      replace h : (if p.1 = k then some p.2 else alookup P k) = none := h
      rw [if_neg hpk] at h
      exact h
    show alookup (mergeD (ainsert old p.1 p.2) P) k = _
    rw [ih _ _ hPk, alookup_ainsert_ne _ _ _ _ (Ne.symm hpk)]

theorem alookup_mergeD_some :
    ∀ (P old : List (Int × AdvEntry)) (k : Int) (v : AdvEntry), NodupKeys P →
      alookup P k = some v → alookup (mergeD old P) k = some v := by
  intro P
  induction P with
  | nil => intro old k v _ h; exact Option.noConfusion h
  | cons p P ih =>
    intro old k v hn h
    have hn' := List.nodup_cons.mp hn
    by_cases hpk : p.1 = k
    · subst hpk
      replace h : (if p.1 = p.1 then some p.2 else alookup P p.1) = some v := h
      rw [if_pos rfl] at h
      have hPk : alookup P p.1 = none := by
        rw [alookup_eq_none_iff]
        exact hn'.1
      show alookup (mergeD (ainsert old p.1 p.2) P) p.1 = some v
      rw [alookup_mergeD_none _ _ _ hPk, alookup_ainsert_self]
      exact h
    · replace h : (if p.1 = k then some p.2 else alookup P k) = some v := h
      rw [if_neg hpk] at h
      show alookup (mergeD (ainsert old p.1 p.2) P) k = some v
      exact ih _ _ _ hn'.2 h

theorem alookup_mergeD (old P : List (Int × AdvEntry)) (k : Int)
    (hn : NodupKeys P) :
    alookup (mergeD old P) k = (alookup P k <|> alookup old k) := by
  cases hP : alookup P k with
  | none => rw [alookup_mergeD_none _ _ _ hP]; rfl
  | some v => rw [alookup_mergeD_some _ _ _ _ hn hP]; rfl

/-! ## Helper lemmas: route-set parsing -/

/-- One step of the parse fold, on the success path. -/
def dvParseFoldF (origin : Int) (acc : List (Int × AdvEntry))
    (kv : String × Json) : Except Unit (List (Int × AdvEntry)) :=
  (entryParse origin kv).map (fun r =>
    match r with
    | none => acc
    | some (d, e) => ainsert acc d e)

theorem dvParseRoutes_eq_foldlM (origin : Int) (kvs : List (String × Json)) :
    dvParseRoutes origin kvs = kvs.foldlM (dvParseFoldF origin) [] := rfl

/-- The entries kept by a successful parse, as a pure fold. -/
def dvKeptStep (origin : Int) (acc : List (Int × AdvEntry))
    (kv : String × Json) : List (Int × AdvEntry) :=
  match entryParse origin kv with
  | .ok (some (d, e)) => ainsert acc d e
  | _ => acc

def dvKeptEntries (origin : Int) (kvs : List (String × Json)) :
    List (Int × AdvEntry) :=
  kvs.foldl (dvKeptStep origin) []

theorem dvParse_ok_of_all (origin : Int) :
    ∀ (kvs : List (String × Json)) (acc : List (Int × AdvEntry)),
      (∀ kv ∈ kvs, entryParse origin kv ≠ .error ()) →
      kvs.foldlM (dvParseFoldF origin) acc
        = .ok (kvs.foldl (dvKeptStep origin) acc) := by
  intro kvs
  induction kvs with
  | nil => intro acc _; rfl
  | cons kv rest ih =>
    intro acc hall
    have hall' : ∀ kv ∈ rest, entryParse origin kv ≠ .error () :=
      fun kv h => hall kv (List.mem_cons_of_mem _ h)
    have hfold : (kv :: rest).foldlM (dvParseFoldF origin) acc
        = (dvParseFoldF origin acc kv).bind
            (fun b => rest.foldlM (dvParseFoldF origin) b) := rfl
    have hkfold : (kv :: rest).foldl (dvKeptStep origin) acc
        = rest.foldl (dvKeptStep origin) (dvKeptStep origin acc kv) := rfl
    cases hE : entryParse origin kv with
    | error e =>
      exact absurd (by cases e; exact hE) (hall kv (List.mem_cons_self kv rest))
    | ok r =>
      cases r with
      | none =>
        have hstep : dvParseFoldF origin acc kv = .ok acc := by
          unfold dvParseFoldF
          rw [hE]
          rfl
        have hkept : dvKeptStep origin acc kv = acc := by
          unfold dvKeptStep
          rw [hE]
        rw [hfold, hstep, hkfold, hkept]
        show rest.foldlM (dvParseFoldF origin) acc = _
        exact ih acc hall'
      | some p =>
        obtain ⟨d0, e0⟩ := p
        have hstep : dvParseFoldF origin acc kv = .ok (ainsert acc d0 e0) := by
          unfold dvParseFoldF
          rw [hE]
          rfl
        have hkept : dvKeptStep origin acc kv = ainsert acc d0 e0 := by
          unfold dvKeptStep
          rw [hE]
        rw [hfold, hstep, hkfold, hkept]
        show rest.foldlM (dvParseFoldF origin) (ainsert acc d0 e0) = _
        exact ih _ hall'

theorem dvParse_error_of_exists (origin : Int) :
    ∀ (kvs : List (String × Json)) (acc : List (Int × AdvEntry)),
      (∃ kv ∈ kvs, entryParse origin kv = .error ()) →
      kvs.foldlM (dvParseFoldF origin) acc = .error () := by
  intro kvs
  induction kvs with
  | nil =>
    intro acc h
    obtain ⟨kv, hmem, _⟩ := h
    exact absurd hmem (List.not_mem_nil kv)
  | cons kv rest ih =>
    intro acc hex
    have hfold : (kv :: rest).foldlM (dvParseFoldF origin) acc
        = (dvParseFoldF origin acc kv).bind
            (fun b => rest.foldlM (dvParseFoldF origin) b) := rfl
    cases hE : entryParse origin kv with
    | error e =>
      cases e
      have hstep : dvParseFoldF origin acc kv = .error () := by
        unfold dvParseFoldF
        rw [hE]
        rfl
      rw [hfold, hstep]
      rfl
    | ok r =>
      obtain ⟨kv', hmem, herr⟩ := hex
      have hmem' : kv' ∈ rest := by
        rcases List.mem_cons.mp hmem with h | h
        · exfalso
          rw [h, hE] at herr
          exact Except.noConfusion herr
        · exact h
      cases r with
      | none =>
        have hstep : dvParseFoldF origin acc kv = .ok acc := by
          unfold dvParseFoldF
          rw [hE]
          rfl
        rw [hfold, hstep]
        show rest.foldlM (dvParseFoldF origin) acc = _
        exact ih _ ⟨kv', hmem', herr⟩
      | some p =>
        obtain ⟨d0, e0⟩ := p
        have hstep : dvParseFoldF origin acc kv = .ok (ainsert acc d0 e0) := by
          unfold dvParseFoldF
          rw [hE]
          rfl
        rw [hfold, hstep]
        show rest.foldlM (dvParseFoldF origin) (ainsert acc d0 e0) = _
        exact ih _ ⟨kv', hmem', herr⟩

theorem nodupKeys_dvKeptEntries (origin : Int) (kvs : List (String × Json)) :
    NodupKeys (dvKeptEntries origin kvs) := by
  unfold dvKeptEntries
  refine foldl_preserve NodupKeys _ kvs _ ?_ ?_
  · simp [NodupKeys, akeys]
  · intro acc kv _ h
    unfold dvKeptStep
    cases entryParse origin kv with
    | error e => exact h
    | ok r =>
      cases r with
      | none => exact h
      | some p =>
        cases p
        exact nodupKeys_ainsert _ _ _ h

theorem dvParseRoutes_ok_iff (origin : Int) (kvs : List (String × Json)) :
    (∀ kv ∈ kvs, entryParse origin kv ≠ .error ()) ↔
      dvParseRoutes origin kvs = .ok (dvKeptEntries origin kvs) := by
  constructor
  · intro h
    rw [dvParseRoutes_eq_foldlM]
    exact dvParse_ok_of_all origin kvs [] h
  · intro h kv hmem herr
    rw [dvParseRoutes_eq_foldlM,
      dvParse_error_of_exists origin kvs [] ⟨kv, hmem, herr⟩] at h
    exact Except.noConfusion h

theorem nodupKeys_of_dvParseRoutes (origin : Int) (kvs : List (String × Json))
    (P : List (Int × AdvEntry)) (h : dvParseRoutes origin kvs = .ok P) :
    NodupKeys P := by
  have hall : ∀ kv ∈ kvs, entryParse origin kv ≠ .error () := by
    intro kv hmem herr
    rw [dvParseRoutes_eq_foldlM,
      dvParse_error_of_exists origin kvs [] ⟨kv, hmem, herr⟩] at h
    exact Except.noConfusion h
  have h2 := (dvParseRoutes_ok_iff origin kvs).mp hall
  rw [h] at h2
  rcases Except.ok.inj h2 with h3
  rw [h3]
  exact nodupKeys_dvKeptEntries origin kvs

/-! ## Helper lemmas: message-handler branch views -/

theorem dv_process_pre_none (s : DVState) (t : Int) :
    dv_process_pre s t none = .raise := rfl

theorem dv_process_pre_not_typed (s : DVState) (t : Int) (msg : Json)
    (h : dvTyped msg = false) : dv_process_pre s t (some msg) = .drop := by
  simp [dv_process_pre, h]

theorem dv_process_pre_no_origin (s : DVState) (t : Int) (msg : Json)
    (h1 : dvTyped msg = true)
    (h2 : (jsonIndex msg "origin").bind pyInt = none) :
    dv_process_pre s t (some msg) = .raise := by
  simp only [dv_process_pre]
  rw [if_pos h1, h2]

theorem dv_process_pre_not_neighbor (s : DVState) (t : Int) (msg : Json)
    (o : Int) (h1 : dvTyped msg = true)
    (h2 : (jsonIndex msg "origin").bind pyInt = some o)
    (h3 : alookup s.neighbor_lat o = none) :
    dv_process_pre s t (some msg) = .drop := by
  simp only [dv_process_pre]
  rw [if_pos h1, h2]
  simp only [h3]

theorem dv_process_pre_routes_not_obj (s : DVState) (t : Int) (msg : Json)
    (o : Int) (w : PyNum) (h1 : dvTyped msg = true)
    (h2 : (jsonIndex msg "origin").bind pyInt = some o)
    (h3 : alookup s.neighbor_lat o = some w)
    (h4 : ∀ kvs, jsonGetD msg "routes" (.obj []) ≠ .obj kvs) :
    dv_process_pre s t (some msg) = .drop := by
  simp only [dv_process_pre]
  rw [if_pos h1, h2]
  simp only [h3]

theorem dv_process_pre_parse_error (s : DVState) (t : Int) (msg : Json)
    (o : Int) (w : PyNum) (kvs : List (String × Json)) (h1 : dvTyped msg = true)
    (h2 : (jsonIndex msg "origin").bind pyInt = some o)
    (h3 : alookup s.neighbor_lat o = some w)
    (h4 : jsonGetD msg "routes" (.obj []) = .obj kvs)
    (h5 : dvParseRoutes o kvs = .error ()) :
    dv_process_pre s t (some msg) = .raise := by
  simp only [dv_process_pre]
  rw [if_pos h1, h2]
  simp only [h3, h4, h5]

/-- The installed state produced by a fully parsed advertisement. -/
def dvInstallState (s : DVState) (t : Int) (o : Int)
    (P : List (Int × AdvEntry)) : DVState :=
  { s with
    neighbor_routes := ainsert s.neighbor_routes o
      (if t = (alookup s.neighbor_last_update o).getD (-1) ∧
          P.length < ((alookup s.neighbor_routes o).getD []).length
       then mergeD ((alookup s.neighbor_routes o).getD []) P
       else P),
    neighbor_last_update := ainsert s.neighbor_last_update o t }

theorem dv_process_pre_ok (s : DVState) (t : Int) (msg : Json)
    (o : Int) (w : PyNum) (kvs : List (String × Json))
    (P : List (Int × AdvEntry)) (h1 : dvTyped msg = true)
    (h2 : (jsonIndex msg "origin").bind pyInt = some o)
    (h3 : alookup s.neighbor_lat o = some w)
    (h4 : jsonGetD msg "routes" (.obj []) = .obj kvs)
    (h5 : dvParseRoutes o kvs = .ok P) :
    dv_process_pre s t (some msg) = .go (dvInstallState s t o P) := by
  simp only [dv_process_pre]
  rw [if_pos h1, h2]
  simp only [h3, h4, h5]
  rfl

/-! ## Helper lemmas: shape of states produced by the DV entry points -/

theorem recompute_tail_inv (s : DVState) (d : Int) (r : DVRoute)
    (hd : d ≠ s.id) (h : alookup (dv_recompute s) d = some r) :
    s.id ∉ r.path.tail := by
  rw [dv_recompute_lookup s d hd] at h
  obtain ⟨hmem, _⟩ := (bestFor_spec s d).2 r h
  unfold dvCandList at hmem
  rcases (mem_optList _ _ _).mp hmem with hdir | hchal
  · obtain ⟨_, hpath⟩ := dvDirects_shape s d r hd hdir
    rw [hpath]
    intro hmem2
    have : s.id = d := List.mem_singleton.mp hmem2
    exact hd this.symm
  · rcases List.mem_filterMap.mp hchal with ⟨p, _, hch⟩
    obtain ⟨adv, e, _, _, hself, hc⟩ := challengerOf_shape s d p.1 p.2 r hch
    rw [hc]
    exact hself

theorem dv_link_st (s : DVState) (n : Int) (lat : PyNum) :
    ∃ s1 : DVState, s1.id = s.id ∧
      (dv_link s n lat).st = { s1 with routes := dv_recompute s1 } := by
  by_cases hc : lat.eqB (PyNum.ofInt (-1)) = true
  · refine Exists.intro
      ({ s with
          neighbor_lat := aremove s.neighbor_lat n,
          neighbor_routes := aremove s.neighbor_routes n,
          neighbor_last_update := aremove s.neighbor_last_update n })
      ⟨rfl, ?_⟩
    simp only [dv_link]
    rw [if_pos hc]
    rfl
  · refine Exists.intro ({ s with neighbor_lat := ainsert s.neighbor_lat n lat })
      ⟨rfl, ?_⟩
    simp only [dv_link]
    rw [if_neg hc]
    rfl

theorem dv_process_pre_go_id (s : DVState) (t : Int) (j : Option Json)
    (s1 : DVState) (hpre : dv_process_pre s t j = .go s1) : s1.id = s.id := by
  cases j with
  | none => exact DVPre.noConfusion hpre
  | some msg =>
    simp only [dv_process_pre] at hpre
    split at hpre
    · split at hpre
      · exact DVPre.noConfusion hpre
      · split at hpre
        · exact DVPre.noConfusion hpre
        · split at hpre
          · split at hpre
            · exact DVPre.noConfusion hpre
            · injection hpre with h
              rw [← h]
          · exact DVPre.noConfusion hpre
    · exact DVPre.noConfusion hpre

theorem dv_process_st (s : DVState) (t : Int) (j : Option Json) :
    (dv_process s t j).st = s ∨
      ∃ s1 : DVState, s1.id = s.id ∧
        (dv_process s t j).st = { s1 with routes := dv_recompute s1 } := by
  cases hpre : dv_process_pre s t j with
  | raise => left; simp only [dv_process, hpre]
  | drop => left; simp only [dv_process, hpre]
  | go s1 =>
    right
    exact ⟨s1, dv_process_pre_go_id s t j s1 hpre,
      by simp only [dv_process, hpre]; rfl⟩

/-- C1: path-vector loop-freedom.  (1) In every reachable state of a
`Distance_Vector_Node`, for every destination `d` in `routes` with
`d ≠ self`, `self` does not appear in `routes[d].path` except as the first
element (the stored path is `self :: rest` with `self ∉ rest`).  (2) When a
stored advertisement entry's path already contains `self`, recomputation
never installs the route built from that entry for that destination via
that neighbor: the committed route's path is never `self :: that path`. -/
theorem dv_loop_freedom_C1 :
    (∀ s : DVState, DVReachable s → ∀ (d : Int) (r : DVRoute),
      alookup s.routes d = some r → d ≠ s.id → s.id ∉ r.path.tail) ∧
    (∀ (s : DVState) (n : Int) (adv : List (Int × AdvEntry)) (d : Int)
        (e : AdvEntry) (r : DVRoute),
      alookup s.neighbor_routes n = some adv → alookup adv d = some e →
      s.id ∈ e.path → d ≠ s.id → alookup (dv_recompute s) d = some r →
      r.path ≠ s.id :: e.path) := by
  constructor
  · intro s hreach
    induction hreach with
    | init i =>
      intro d r h hd
      have hd' : d ≠ i := hd
      replace h : (if i = d then some (selfRoute i) else none) = some r := h
      rw [if_neg (Ne.symm hd')] at h
      exact Option.noConfusion h
    | step s0 s0' hR hstep ih =>
      cases hstep with
      | link n lat =>
        obtain ⟨s1, hid, hst⟩ := dv_link_st s0 n lat
        intro d r h hd
        rw [hst] at h hd ⊢
        refine recompute_tail_inv s1 d r ?_ h
        exact hd
      | msg t j =>
        rcases dv_process_st s0 t j with hcase | ⟨s1, hid, hst⟩
        · rw [hcase]
          exact ih
        · intro d r h hd
          rw [hst] at h hd ⊢
          refine recompute_tail_inv s1 d r ?_ h
          exact hd
  · intro s n adv d e r hadv he hself hd hr heq
    rw [dv_recompute_lookup s d hd] at hr
    obtain ⟨hmem, _⟩ := (bestFor_spec s d).2 r hr
    unfold dvCandList at hmem
    rcases (mem_optList _ _ _).mp hmem with hdir | hchal
    · obtain ⟨_, hpath⟩ := dvDirects_shape s d r hd hdir
      rw [hpath] at heq
      injection heq with h1 h2
      have : s.id ∈ [d] := by rw [h2]; exact hself
      exact hd (List.mem_singleton.mp this).symm
    · rcases List.mem_filterMap.mp hchal with ⟨p, _, hch⟩
      obtain ⟨adv', e', _, _, hself', hc⟩ := challengerOf_shape s d p.1 p.2 r hch
      rw [hc] at heq
      replace heq : s.id :: e'.path = s.id :: e.path := heq
      injection heq with _ h2
      rw [h2] at hself'
      exact hself' hself

def sC1 : DVState := (dv_link (dv_init 0) 1 (PyNum.ofInt 5)).st

def rC1 : DVRoute := ⟨PyNum.ofInt 5, 1, [0, 1]⟩

theorem dv_loop_freedom_C1_witness : sC1.id ∉ rC1.path.tail :=
  dv_loop_freedom_C1.1 sC1
    (DVReachable.step (dv_init 0) sC1 (DVReachable.init 0)
      (DVStep.link (dv_init 0) 1 (PyNum.ofInt 5)))
    1 rC1 (by decide) (by decide)

/-- C6: next-hop query contract for both node variants.  For any state:
`next_hop(self) = self`; when a route (DV) or a first-hop entry (LS)
exists for `dest ≠ self` it is returned; otherwise the unreachable
sentinel `-1` is returned.  The query is a total function, so it never
raises for an unknown or unreachable destination. -/
theorem next_hop_contract_C6 :
    (∀ s : DVState, dv_get_next_hop s s.id = s.id) ∧
    (∀ (s : DVState) (d : Int) (r : DVRoute), d ≠ s.id →
      alookup s.routes d = some r → dv_get_next_hop s d = r.next) ∧
    (∀ (s : DVState) (d : Int), d ≠ s.id → alookup s.routes d = none →
      dv_get_next_hop s d = -1) ∧
    (∀ s : LSState, ls_get_next_hop s s.id = s.id) ∧
    (∀ (s : LSState) (d h : Int), d ≠ s.id →
      alookup s.routing_table d = some h → ls_get_next_hop s d = h) ∧
    (∀ (s : LSState) (d : Int), d ≠ s.id → alookup s.routing_table d = none →
      ls_get_next_hop s d = -1) := by
  refine ⟨?_, ?_, ?_, ?_, ?_, ?_⟩
  · intro s
    unfold dv_get_next_hop
    rw [if_pos rfl]
  · intro s d r hd h
    unfold dv_get_next_hop
    rw [if_neg hd, h]
  · intro s d hd h
    unfold dv_get_next_hop
    rw [if_neg hd, h]
  · intro s
    unfold ls_get_next_hop
    rw [if_pos rfl]
  · intro s d h0 hd h
    unfold ls_get_next_hop
    rw [if_neg hd, h]
    rfl
  · intro s d hd h
    unfold ls_get_next_hop
    rw [if_neg hd, h]
    rfl

def sC6 : DVState :=
  ⟨0, [], [], [], [(0, selfRoute 0), (3, ⟨PyNum.ofInt 7, 1, [0, 1, 3]⟩)]⟩

def lsC6 : LSState := ⟨0, [], [], 0, [(2, 1)], []⟩

theorem next_hop_contract_C6_witness :
    dv_get_next_hop sC6 0 = 0 ∧ dv_get_next_hop sC6 3 = 1 ∧
    dv_get_next_hop sC6 9 = -1 ∧ ls_get_next_hop lsC6 0 = 0 ∧
    ls_get_next_hop lsC6 2 = 1 ∧ ls_get_next_hop lsC6 9 = -1 :=
  ⟨next_hop_contract_C6.1 sC6,
   next_hop_contract_C6.2.1 sC6 3 ⟨PyNum.ofInt 7, 1, [0, 1, 3]⟩ (by decide)
     (by decide),
   next_hop_contract_C6.2.2.1 sC6 9 (by decide) (by decide),
   next_hop_contract_C6.2.2.2.1 lsC6,
   next_hop_contract_C6.2.2.2.2.1 lsC6 2 1 (by decide) (by decide),
   next_hop_contract_C6.2.2.2.2.2 lsC6 9 (by decide) (by decide)⟩

/-- C7: path-vector selection order and finite commit.  For every state
and destination `d ≠ self`: a route is committed for `d` if and only if
the candidate pool (direct-neighbor candidate plus non-rejected
challengers) is non-empty — unreachable destinations are absent rather
than kept with infinite cost — and the committed route is a member of the
pool that is minimal under the strict lexicographic key
`(cost, resulting path length, next-hop identifier)`: no candidate's key
is strictly below the committed route's key. -/
theorem dv_selection_C7 (s : DVState) (d : Int) (hd : d ≠ s.id) :
    ((alookup (dv_recompute s) d).isSome ↔ dvCandList s d ≠ []) ∧
    (∀ r, alookup (dv_recompute s) d = some r →
      r ∈ dvCandList s d ∧
      ∀ c ∈ dvCandList s d, ¬ dvKeyLt (dvKey c) (dvKey r)) := by
  rw [show (alookup (dv_recompute s) d).isSome
      ↔ alookup (dv_recompute s) d ≠ none from Option.isSome_iff_ne_none]
  rw [dv_recompute_lookup s d hd]
  exact ⟨not_congr (bestFor_spec s d).1, (bestFor_spec s d).2⟩

def sC7 : DVState :=
  ⟨0, [(1, PyNum.ofInt 2)], [(1, [(2, ⟨PyNum.ofInt 3, [1, 2]⟩)])], [],
   [(0, selfRoute 0)]⟩

theorem dv_selection_C7_witness :
    (⟨⟨5, 0⟩, 1, [0, 1, 2]⟩ : DVRoute) ∈ dvCandList sC7 2 :=
  ((dv_selection_C7 sC7 2 (by decide)).2 ⟨⟨5, 0⟩, 1, [0, 1, 2]⟩ (by decide)).1

/-- C8: idempotent recomputation.  DV: running
recompute-install-and-conditionally-broadcast a second time from the state
installed by the first run yields the identical state and reports no
change, so it broadcasts nothing.  LS: recomputing and installing
`dist`/`routing_table` a second time is the identity (the LS
recomputation itself never sends anything). -/
theorem recompute_idempotent_C8 :
    (∀ s : DVState,
      dv_recompute_and_broadcast (dv_recompute_and_broadcast s).1
        = ((dv_recompute_and_broadcast s).1, [])) ∧
    (∀ s : LSState, ls_apply_recompute (ls_apply_recompute s)
        = ls_apply_recompute s) := by
  constructor
  · intro s
    simp only [dv_recompute_and_broadcast]
    rw [dv_recompute_routes_irrel]
    rw [dictEqB_refl _ (nodupKeys_dv_recompute s)]
    simp
  · intro s
    simp only [ls_apply_recompute]
    rw [ls_recompute_irrel]


/-! ## Helper lemmas: branch analysis of the LS message handler -/

theorem ls_process_cases (s : LSState) (j : Option Json) :
    ls_process s j = ⟨s, [], false⟩ ∨
    ∃ msg o q, j = some msg ∧ lsaTyped msg = true ∧ lsOrigin msg = some o ∧
      lsSeq msg = some q ∧ o ≠ s.id ∧
      (alookup s.lsdb o = none ∨
        ∃ rec0, alookup s.lsdb o = some rec0 ∧ rec0.seq < q) ∧
      ls_process s j = lsInstall s msg o q
        (lsParseNeighbors (jsonGetD msg "neighbors" (.obj []))) := by
  cases j with
  | none => left; rfl
  | some msg =>
    by_cases h1 : lsaTyped msg = true
    · cases h2 : lsOrigin msg with
      | none =>
        left
        simp only [ls_process]
        rw [if_pos h1]
        simp only [h2]
      | some o =>
        cases h3 : lsSeq msg with
        | none =>
          left
          simp only [ls_process]
          rw [if_pos h1]
          simp only [h2, h3]
        | some q =>
          by_cases ho : o = s.id
          · left
            simp only [ls_process]
            rw [if_pos h1]
            simp only [h2, h3]
            rw [if_pos ho]
          · cases h4 : alookup s.lsdb o with
            | none =>
              right
              refine ⟨msg, o, q, rfl, h1, h2, h3, ho, Or.inl h4, ?_⟩
              simp only [ls_process]
              rw [if_pos h1]
              simp only [h2, h3]
              rw [if_neg ho]
              simp only [h4]
            | some rec0 =>
              by_cases h5 : q ≤ rec0.seq
              · left
                simp only [ls_process]
                rw [if_pos h1]
                simp only [h2, h3]
                rw [if_neg ho]
                simp only [h4]
                rw [if_pos h5]
              · right
                refine ⟨msg, o, q, rfl, h1, h2, h3, ho,
                  Or.inr ⟨rec0, h4, not_le.mp h5⟩, ?_⟩
                simp only [ls_process]
                rw [if_pos h1]
                simp only [h2, h3]
                rw [if_neg ho]
                simp only [h4]
                rw [if_neg h5]
    · left
      simp only [ls_process]
      rw [if_neg h1]

theorem lsInstall_st_lsdb (s : LSState) (msg : Json) (o q : Int)
    (nb : List (Int × Int)) :
    (lsInstall s msg o q nb).st.lsdb = ainsert s.lsdb o ⟨q, nb⟩ := rfl

/-- C2: link-state monotonic acceptance.  (1) If the incoming
advertisement's origin already has an LSDB entry and its sequence number
is not strictly greater than the stored one, the handler returns with the
whole node state unchanged and sends nothing.  (2) Whenever the LSDB entry
for some origin changes at all, the message was a well-formed LSA for that
origin from another node whose sequence number was strictly greater than
the stored one (or no entry existed), and the new entry carries the
incoming sequence number. -/
theorem ls_monotonic_C2 :
    (∀ (s : LSState) (msg : Json) (o q : Int) (rec0 : LSRec),
      lsaTyped msg = true → lsOrigin msg = some o → lsSeq msg = some q →
      alookup s.lsdb o = some rec0 → q ≤ rec0.seq →
      ls_process s (some msg) = ⟨s, [], false⟩) ∧
    (∀ (s : LSState) (j : Option Json) (o : Int),
      alookup (ls_process s j).st.lsdb o ≠ alookup s.lsdb o →
      ∃ msg q, j = some msg ∧ lsaTyped msg = true ∧ lsOrigin msg = some o ∧
        lsSeq msg = some q ∧ o ≠ s.id ∧
        (alookup s.lsdb o = none ∨
          ∃ rec0, alookup s.lsdb o = some rec0 ∧ rec0.seq < q) ∧
        alookup (ls_process s j).st.lsdb o
          = some ⟨q, lsParseNeighbors (jsonGetD msg "neighbors" (.obj []))⟩) := by
  constructor
  · intro s msg o q rec0 h1 h2 h3 h4 h5
    rcases ls_process_cases s (some msg) with hc | hc
    · exact hc
    · obtain ⟨msg', o', q', hj, _, h2', h3', _, hseq, _⟩ := hc
      rcases Option.some.inj hj with hmsg
      rw [← hmsg] at h2' h3'
      rw [h2] at h2'
      rcases Option.some.inj h2' with ho'
      rw [h3] at h3'
      rcases Option.some.inj h3' with hq'
      rw [← ho'] at hseq
      rcases hseq with hnone | ⟨rec1, hrec1, hlt⟩
      · rw [h4] at hnone
        exact Option.noConfusion hnone
      · rw [h4] at hrec1
        rcases Option.some.inj hrec1 with hr
        rw [← hr, ← hq'] at hlt
        exact absurd h5 (not_le.mpr hlt)
  · intro s j o hne
    rcases ls_process_cases s j with hc | hc
    · rw [hc] at hne
      exact absurd rfl hne
    · obtain ⟨msg, o', q, hj, h1, h2, h3, ho, hseq, hproc⟩ := hc
      rw [hproc] at hne
      rw [lsInstall_st_lsdb] at hne
      have hoo : o = o' := by
        by_contra hoc
        rw [alookup_ainsert_ne _ _ _ _ hoc] at hne
        exact hne rfl
      subst hoo
      refine ⟨msg, q, hj, h1, h2, h3, ho, hseq, ?_⟩
      rw [hproc, lsInstall_st_lsdb]
      exact alookup_ainsert_self _ _ _

def sC2 : LSState := ⟨0, [], [(0, ⟨0, []⟩), (1, ⟨5, []⟩)], 0, [], []⟩

def msgC2 : Json :=
  .obj [("type", .str "LSA"), ("origin", .num (PyNum.ofInt 1)),
        ("seq", .num (PyNum.ofInt 3)), ("neighbors", .obj [])]

theorem ls_monotonic_C2_witness :
    ls_process sC2 (some msgC2) = ⟨sC2, [], false⟩ :=
  ls_monotonic_C2.1 sC2 msgC2 1 3 ⟨5, []⟩ (by decide) (by decide) (by decide)
    (by decide) (by decide)

/-- C9 (implicit): the link-state message handler is total — every
fallible step is guarded, so for every input (unparseable string, wrong
type, bad fields) the handler returns normally (never raises) and either
leaves the whole node state unchanged or performs a full acceptance:
install for a well-formed LSA from another node, re-flood, recompute. -/
theorem ls_total_C9 :
    ∀ (s : LSState) (j : Option Json),
      (ls_process s j).raised = false ∧
      ((ls_process s j).st = s ∨
        ∃ msg o q, j = some msg ∧ lsaTyped msg = true ∧ lsOrigin msg = some o ∧
          lsSeq msg = some q ∧ o ≠ s.id ∧
          (ls_process s j).st = (lsInstall s msg o q
            (lsParseNeighbors (jsonGetD msg "neighbors" (.obj [])))).st) := by
  intro s j
  rcases ls_process_cases s j with hc | hc
  · rw [hc]
    exact ⟨rfl, Or.inl rfl⟩
  · obtain ⟨msg, o, q, hj, h1, h2, h3, ho, _, hproc⟩ := hc
    rw [hproc]
    exact ⟨rfl, Or.inr ⟨msg, o, q, hj, h1, h2, h3, ho, rfl⟩⟩

/-- C3: path-vector same-timestamp merge.  For a well-formed advertisement
from neighbor `o` parsed into the route set `P`, at current time `t` with
stored time `t_last` and stored set `old`: the call does not raise, `t`
is recorded as the new `t_last` for `o`, and the stored advertisement
becomes the union of `old` and `P` with `P` winning on key collision when
`t = t_last` and `P` has strictly fewer entries than `old`, and exactly
`P` (wholesale replacement) in every other case. -/
theorem dv_merge_C3 (s : DVState) (t : Int) (msg : Json) (o : Int)
    (w : PyNum) (kvs : List (String × Json)) (P : List (Int × AdvEntry))
    (h1 : dvTyped msg = true)
    (h2 : (jsonIndex msg "origin").bind pyInt = some o)
    (h3 : alookup s.neighbor_lat o = some w)
    (h4 : jsonGetD msg "routes" (.obj []) = .obj kvs)
    (h5 : dvParseRoutes o kvs = .ok P) :
    (dv_process s t (some msg)).raised = false ∧
    alookup (dv_process s t (some msg)).st.neighbor_last_update o = some t ∧
    (if t = (alookup s.neighbor_last_update o).getD (-1) ∧
        P.length < ((alookup s.neighbor_routes o).getD []).length
     then ∀ dd, alookup
            ((alookup (dv_process s t (some msg)).st.neighbor_routes o).getD [])
            dd
          = (alookup P dd <|> alookup ((alookup s.neighbor_routes o).getD []) dd)
     else alookup (dv_process s t (some msg)).st.neighbor_routes o = some P) := by
  have hpre := dv_process_pre_ok s t msg o w kvs P h1 h2 h3 h4 h5
  have hst : (dv_process s t (some msg)).st
      = { dvInstallState s t o P with
          routes := dv_recompute (dvInstallState s t o P) } := by
    simp only [dv_process, hpre]
    rfl
  have hraised : (dv_process s t (some msg)).raised = false := by
    simp only [dv_process, hpre]
  refine ⟨hraised, ?_, ?_⟩
  · rw [hst]
    show alookup (ainsert s.neighbor_last_update o t) o = some t
    exact alookup_ainsert_self _ _ _
  · by_cases hcond : t = (alookup s.neighbor_last_update o).getD (-1) ∧
        P.length < ((alookup s.neighbor_routes o).getD []).length
    · rw [if_pos hcond]
      intro dd
      rw [hst]
      have hsto : alookup
          ({ dvInstallState s t o P with
             routes := dv_recompute (dvInstallState s t o P) }).neighbor_routes o
          = some (mergeD ((alookup s.neighbor_routes o).getD []) P) := by
        show alookup (ainsert s.neighbor_routes o _) o = _
        rw [alookup_ainsert_self]
        rw [if_pos hcond]
      rw [hsto]
      show alookup (mergeD ((alookup s.neighbor_routes o).getD []) P) dd = _
      exact alookup_mergeD _ _ _ (nodupKeys_of_dvParseRoutes o kvs P h5)
    · rw [if_neg hcond, hst]
      show alookup (ainsert s.neighbor_routes o
        (if t = (alookup s.neighbor_last_update o).getD (-1) ∧
            P.length < ((alookup s.neighbor_routes o).getD []).length
         then mergeD ((alookup s.neighbor_routes o).getD []) P
         else P)) o = some P
      rw [alookup_ainsert_self, if_neg hcond]

def sC3 : DVState :=
  ⟨0, [(1, PyNum.ofInt 2)],
   [(1, [(2, ⟨PyNum.ofInt 3, [1, 2]⟩), (3, ⟨PyNum.ofInt 4, [1, 3]⟩)])],
   [(1, 5)], [(0, selfRoute 0)]⟩

def msgC3 : Json :=
  .obj [("type", .str "DV_PATH"), ("origin", .num (PyNum.ofInt 1)),
        ("routes", .obj [("2", .obj [("cost", .num (PyNum.ofInt 3)),
          ("path", .arr [.num (PyNum.ofInt 1), .num (PyNum.ofInt 2)])])])]

def pC3 : List (Int × AdvEntry) := [(2, ⟨PyNum.ofInt 3, [1, 2]⟩)]

theorem dv_merge_C3_witness :
    alookup (dv_process sC3 5 (some msgC3)).st.neighbor_last_update 1
      = some 5 :=
  (dv_merge_C3 sC3 5 msgC3 1 (PyNum.ofInt 2) _ pC3 (by decide) (by decide)
    (by decide) rfl rfl).2.1

/-- C4 counterexample: the claim says `process_incoming_routing_message`
returns without raising for every input that is not a well-formed
advertisement, including strings that are not valid JSON.  But the DV
handler does not guard `json.loads`: on a string that is not valid JSON
(parse result `none`) the call raises — `raised = true` — although the
state is indeed left unchanged. -/
theorem dv_malformed_C4_cex :
    (dv_process (dv_init 0) 0 none).raised = true ∧
    (dv_process (dv_init 0) 0 none).st = dv_init 0 := by
  exact ⟨rfl, rfl⟩

/-- C4 (amended): the DV handler leaves all node state unchanged on every
malformed input, but it is silent only for inputs that parse as JSON:
(1) a string that is not valid JSON raises (uncaught `json.loads`
exception, state unchanged); (2) a JSON value that is not a dict of type
`"DV_PATH"` is dropped silently; (3) a type-correct dict whose `origin`
is missing or not int-convertible raises (state unchanged); (4) a
well-formed header from a non-neighbor is dropped silently; (5) a
`routes` field that is present but not a dict is dropped silently. -/
theorem dv_malformed_C4_amended :
    (∀ (s : DVState) (t : Int), dv_process s t none = ⟨s, [], true⟩) ∧
    (∀ (s : DVState) (t : Int) (msg : Json), dvTyped msg = false →
      dv_process s t (some msg) = ⟨s, [], false⟩) ∧
    (∀ (s : DVState) (t : Int) (msg : Json), dvTyped msg = true →
      (jsonIndex msg "origin").bind pyInt = none →
      dv_process s t (some msg) = ⟨s, [], true⟩) ∧
    (∀ (s : DVState) (t : Int) (msg : Json) (o : Int), dvTyped msg = true →
      (jsonIndex msg "origin").bind pyInt = some o →
      alookup s.neighbor_lat o = none →
      dv_process s t (some msg) = ⟨s, [], false⟩) ∧
    (∀ (s : DVState) (t : Int) (msg : Json) (o : Int) (w : PyNum),
      dvTyped msg = true → (jsonIndex msg "origin").bind pyInt = some o →
      alookup s.neighbor_lat o = some w →
      (∀ kvs, jsonGetD msg "routes" (.obj []) ≠ .obj kvs) →
      dv_process s t (some msg) = ⟨s, [], false⟩) := by
  refine ⟨?_, ?_, ?_, ?_, ?_⟩
  · intro s t
    rfl
  · intro s t msg h
    simp only [dv_process, dv_process_pre_not_typed s t msg h]
  · intro s t msg h1 h2
    simp only [dv_process, dv_process_pre_no_origin s t msg h1 h2]
  · intro s t msg o h1 h2 h3
    simp only [dv_process, dv_process_pre_not_neighbor s t msg o h1 h2 h3]
  · intro s t msg o w h1 h2 h3 h4
    simp only [dv_process, dv_process_pre_routes_not_obj s t msg o w h1 h2 h3 h4]

theorem dv_malformed_C4_amended_witness :
    dv_process (dv_init 0) 1 none = ⟨dv_init 0, [], true⟩ ∧
    dv_process (dv_init 0) 1 (some (Json.num (PyNum.ofInt 3)))
      = ⟨dv_init 0, [], false⟩ ∧
    dv_process (dv_init 0) 1 (some (Json.obj [("type", .str "DV_PATH")]))
      = ⟨dv_init 0, [], true⟩ :=
  ⟨dv_malformed_C4_amended.1 (dv_init 0) 1,
   dv_malformed_C4_amended.2.1 (dv_init 0) 1 _ (by decide),
   dv_malformed_C4_amended.2.2.1 (dv_init 0) 1 _ (by decide) (by decide)⟩

def sC5 : DVState := (dv_link (dv_init 0) 2 (PyNum.ofInt 1)).st

def msgC5 : Json :=
  .obj [("type", .str "DV_PATH"), ("origin", .num (PyNum.ofInt 2)),
        ("routes", .obj
          [("3", .obj [("cost", .null),
             ("path", .arr [.num (PyNum.ofInt 2)])]),
           ("4", .obj [("cost", .num (PyNum.ofInt 1)),
             ("path", .arr [.num (PyNum.ofInt 2), .num (PyNum.ofInt 4)])])])]

/-- C5 counterexample: the claim says an entry lacking a numeric cost is
dropped individually while the other entries of the message are processed
normally, and that such a message never raises.  In a state where 2 is a
neighbor, a message from 2 whose entry for 3 has a `null` cost and whose
entry for 4 is perfectly valid raises an uncaught exception
(`float(entry["cost"])`), aborts the whole message with the state
unchanged, and installs no route to 4. -/
theorem dv_entry_C5_cex :
    (dv_process sC5 0 (some msgC5)).raised = true ∧
    (dv_process sC5 0 (some msgC5)).st = sC5 ∧
    alookup (dv_process sC5 0 (some msgC5)).st.routes 4 = none := by
  refine ⟨by decide, by decide, by decide⟩

/-- C5 (amended): per-entry validation in path-vector advertisements.
(1) When every entry of the route set converts cleanly (int-convertible
key, float-convertible `cost`, a `path` field whose elements are
int-convertible when it is a list), parsing succeeds and equals the
entrywise fold that drops individually exactly the entries whose path is
not a list, is empty, or does not start at the origin.  (2) If any entry
raises (non-int key, missing/non-numeric cost, missing path, non-int
path element), the whole parse raises.  (3) The per-entry outcomes:
path not a list → entry dropped individually; path a list of ints that is
empty or does not start at the origin → entry dropped individually;
otherwise the entry is kept.  (4) A message whose route set raises makes
the whole handler raise with all node state unchanged and nothing sent. -/
theorem dv_entry_C5_amended :
    (∀ (o : Int) (kvs : List (String × Json)),
      (∀ kv ∈ kvs, entryParse o kv ≠ .error ()) →
      dvParseRoutes o kvs = .ok (dvKeptEntries o kvs)) ∧
    (∀ (o : Int) (kvs : List (String × Json)) (kv : String × Json),
      kv ∈ kvs → entryParse o kv = .error () →
      dvParseRoutes o kvs = .error ()) ∧
    (∀ (o d : Int) (kv : String × Json) (cv pv : Json) (c : PyNum),
      pyIntOfString kv.1 = some d → jsonIndex kv.2 "cost" = some cv →
      pyFloat cv = some c → jsonIndex kv.2 "path" = some pv →
      ((∀ xs, pv ≠ .arr xs) → entryParse o kv = .ok none) ∧
      (∀ xs p, pv = .arr xs → xs.mapM pyInt = some p →
        (p = [] ∨ p.head? ≠ some o) → entryParse o kv = .ok none) ∧
      (∀ xs p, pv = .arr xs → xs.mapM pyInt = some p →
        ¬(p = [] ∨ p.head? ≠ some o) →
        entryParse o kv = .ok (some (d, ⟨c, p⟩)))) ∧
    (∀ (s : DVState) (t : Int) (msg : Json) (o : Int) (w : PyNum)
        (kvs : List (String × Json)),
      dvTyped msg = true → (jsonIndex msg "origin").bind pyInt = some o →
      alookup s.neighbor_lat o = some w →
      jsonGetD msg "routes" (.obj []) = .obj kvs →
      dvParseRoutes o kvs = .error () →
      dv_process s t (some msg) = ⟨s, [], true⟩) := by
  refine ⟨?_, ?_, ?_, ?_⟩
  · intro o kvs h
    rw [dvParseRoutes_eq_foldlM]
    exact dvParse_ok_of_all o kvs [] h
  · intro o kvs kv hmem herr
    rw [dvParseRoutes_eq_foldlM]
    exact dvParse_error_of_exists o kvs [] ⟨kv, hmem, herr⟩
  · intro o d kv cv pv c hd hcv hc hpv
    refine ⟨?_, ?_, ?_⟩
    · intro hnot
      simp only [entryParse, hd, hcv, hc, hpv]
    · intro xs p harr hmap hor
      subst harr
      simp only [entryParse, hd, hcv, hc, hpv, hmap]
      rw [if_pos hor]
    · intro xs p harr hmap hor
      subst harr
      simp only [entryParse, hd, hcv, hc, hpv, hmap]
      rw [if_neg hor]
  · intro s t msg o w kvs h1 h2 h3 h4 h5
    simp only [dv_process,
      dv_process_pre_parse_error s t msg o w kvs h1 h2 h3 h4 h5]

theorem dv_entry_C5_amended_witness :
    dvParseRoutes 2 [("3", .obj [("cost", .null),
        ("path", .arr [.num (PyNum.ofInt 2)])])] = .error () ∧
    entryParse 2 ("9", .obj [("cost", .num (PyNum.ofInt 1)),
        ("path", .arr ([] : List Json))]) = .ok none ∧
    dv_process sC5 0 (some msgC5) = ⟨sC5, [], true⟩ :=
  ⟨dv_entry_C5_amended.2.1 2 _ _ (List.mem_singleton.mpr rfl) rfl,
   (dv_entry_C5_amended.2.2.1 2 9
      ("9", .obj [("cost", .num (PyNum.ofInt 1)),
        ("path", .arr ([] : List Json))])
      (.num (PyNum.ofInt 1)) (.arr ([] : List Json)) (PyNum.ofInt 1)
      rfl rfl rfl rfl).2.1 [] [] rfl rfl (Or.inl rfl),
   dv_entry_C5_amended.2.2.2 sC5 0 msgC5 2 (PyNum.ofInt 1) _ (by decide)
     (by decide) (by decide) rfl rfl⟩

def msgC10 : Json :=
  .obj [("type", .str "LSA"), ("origin", .num (PyNum.ofInt 1)),
        ("seq", .num (PyNum.ofInt 1)),
        ("neighbors", .obj [("2", .num ⟨-1, 1⟩)])]

/-- C10 counterexample: the claim says advertised costs that are negative
are dropped.  The code drops an entry only when `int(v)` is negative: an
advertised cost of `-1/2` (a negative value, `ltB` against `0` holds) has
`int(-0.5) = 0 ≥ 0` and is installed as cost `0` rather than dropped —
the installed record for origin 1 is `{seq 1, {2: 0}}`, not `{seq 1, {}}`. -/
theorem ls_int_cost_C10_cex :
    PyNum.ltB ⟨-1, 1⟩ (PyNum.ofInt 0) = true ∧
    alookup (ls_process (ls_init 0) (some msgC10)).st.lsdb 1
      = some ⟨1, [(2, 0)]⟩ := by
  refine ⟨by decide, by decide⟩

/-- C10 (amended): link-state costs are truncated to integers.
(1) `link_has_been_updated` stores `int(latency)` (truncation toward
zero) in the neighbor table; (2) for a non-negative latency this
truncation is the floor; (3) a received advertisement entry is dropped
when its key or value is not int-convertible or when `int(v)` is negative
(so a fractional cost in `(-1,0)` truncates to `0` and is installed);
(4) an entry with int-convertible key and value and `0 ≤ int(v)` is
installed as `int(v)`; (5) by contrast, the distance-vector node stores
the latency exactly as a float, fractional part preserved. -/
theorem ls_int_cost_C10_amended :
    (∀ (s : LSState) (n : Int) (lat : PyNum),
      lat.eqB (PyNum.ofInt (-1)) = false →
      alookup (ls_link s n lat).st.neighbor_lat n = some (pyTrunc lat)) ∧
    (∀ lat : PyNum, 0 ≤ lat.toRat → pyTrunc lat = ⌊lat.toRat⌋) ∧
    (∀ (acc : List (Int × Int)) (kv : String × Json),
      (pyIntOfString kv.1 = none ∨ pyInt kv.2 = none ∨
        (∃ nv, pyInt kv.2 = some nv ∧ nv < 0)) →
      lsNbrStep acc kv = acc) ∧
    (∀ (acc : List (Int × Int)) (kv : String × Json) (nk nv : Int),
      pyIntOfString kv.1 = some nk → pyInt kv.2 = some nv → 0 ≤ nv →
      lsNbrStep acc kv = ainsert acc nk nv) ∧
    (∀ (s : DVState) (n : Int) (lat : PyNum),
      lat.eqB (PyNum.ofInt (-1)) = false →
      alookup (dv_link s n lat).st.neighbor_lat n = some lat) := by
  refine ⟨?_, ?_, ?_, ?_, ?_⟩
  · intro s n lat h
    simp only [ls_link]
    rw [if_neg (by rw [h]; exact Bool.false_ne_true)]
    show alookup (ainsert s.neighbor_lat n (pyTrunc lat)) n = some (pyTrunc lat)
    exact alookup_ainsert_self _ _ _
  · intro lat h
    have hnum : (0 : ℤ) ≤ lat.num := by
      have h2 : (0 : ℚ) ≤ (lat.num : ℚ) := by
        have h3 := mul_nonneg h (le_of_lt lat.den_cast_pos)
        rw [PyNum.toRat, div_mul_cancel₀ _ (ne_of_gt lat.den_cast_pos)] at h3
        exact h3
      exact_mod_cast h2
    unfold pyTrunc PyNum.toRat
    rw [Int.tdiv_eq_ediv hnum (by positivity), Rat.floor_intCast_div_natCast]
  · intro acc kv h
    rcases h with h | h | ⟨nv, hnv, hneg⟩
    · unfold lsNbrStep
      rw [h]
    · unfold lsNbrStep
      rw [h]
      cases pyIntOfString kv.1 <;> rfl
    · unfold lsNbrStep
      rw [hnv]
      cases pyIntOfString kv.1 with
      | none => rfl
      | some nk =>
        show (if 0 ≤ nv then ainsert acc nk nv else acc) = acc
        rw [if_neg (not_le.mpr hneg)]
  · intro acc kv nk nv h1 h2 h3
    unfold lsNbrStep
    rw [h1, h2]
    show (if 0 ≤ nv then ainsert acc nk nv else acc) = ainsert acc nk nv
    rw [if_pos h3]
  · intro s n lat h
    simp only [dv_link]
    rw [if_neg (by rw [h]; exact Bool.false_ne_true)]
    show alookup (ainsert s.neighbor_lat n lat) n = some lat
    exact alookup_ainsert_self _ _ _

theorem ls_int_cost_C10_amended_witness :
    alookup (ls_link (ls_init 0) 3 ⟨5, 1⟩).st.neighbor_lat 3 = some 2 ∧
    pyTrunc ⟨5, 1⟩ = ⌊PyNum.toRat ⟨5, 1⟩⌋ ∧
    lsNbrStep [] ("2", .num (PyNum.ofInt (-3))) = [] ∧
    lsNbrStep [] ("2", .num (PyNum.ofInt 4)) = [(2, 4)] ∧
    alookup (dv_link (dv_init 0) 3 ⟨5, 1⟩).st.neighbor_lat 3 = some ⟨5, 1⟩ :=
  ⟨ls_int_cost_C10_amended.1 (ls_init 0) 3 ⟨5, 1⟩ (by decide),
   ls_int_cost_C10_amended.2.1 ⟨5, 1⟩
     (by norm_num [PyNum.toRat, PyNum.den]),
   ls_int_cost_C10_amended.2.2.1 [] ("2", .num (PyNum.ofInt (-3)))
     (Or.inr (Or.inr ⟨-3, rfl, by decide⟩)),
   ls_int_cost_C10_amended.2.2.2.1 [] ("2", .num (PyNum.ofInt 4)) 2 4 rfl rfl
     (by decide),
   ls_int_cost_C10_amended.2.2.2.2 (dv_init 0) 3 ⟨5, 1⟩ (by decide)⟩
